import Mathlib

/-!
# space-globe: the data-to-geometry pipeline of `main.js`

A shallow embedding of `src/backup-v1-working/main.js`: the catalog loader
(`loadStars`), the constellation resolver (`loadConstellations`), the colour
table (`getStarColor`) and the label projector (`updateLabels`), followed by
the properties proved about them.

Conventions of the embedding.
* A JavaScript Number is a `JSNumber`: NaN, the two infinities, or a finite
  value given exactly as a rational.  `+0` and `-0` are one value, so Lean's
  equality on `JSNumber` is the SameValueZero comparison a `Map` uses for keys.
  The operators `+` and `*` round the exact result to binary64 (`roundDouble`).
* A value that may be `undefined` (an array slot past the end, the result of
  `Array.prototype.find`) is an `Option`.
* A `Map` is an insertion-ordered association list with `mapGet` / `mapSet`.
* The engine's numeric built-ins (`parseFloat`, `parseInt`, the rounded
  floating-point operations, `Math.cos`, `Math.sin`, `Math.PI`) and the
  `THREE.Color` constructor are parameters, collected in `Engine`.
-/

namespace SpaceGlobe

/-! ## JavaScript values -/

/-- A JavaScript Number, up to the sign of zero. -/
inductive JSNumber where
  | nan
  | posInf
  | negInf
  | fin (q : ℚ)
  deriving DecidableEq

namespace JSNumber

instance : NatCast JSNumber := ⟨fun n => fin n⟩

/-- The relational operator `a > b` on Numbers: false as soon as one side is NaN. -/
def gt : JSNumber → JSNumber → Bool
  | fin a, fin b => decide (b < a)
  | posInf, fin _ => true
  | posInf, negInf => true
  | fin _, negInf => true
  | _, _ => false

/-- The relational operator `a < b` on Numbers. -/
def lt (a b : JSNumber) : Bool := gt b a

/-- ToBoolean on a Number: NaN and zero are falsy. -/
def truthy : JSNumber → Bool
  | nan => false
  | fin q => decide (q ≠ 0)
  | _ => true

end JSNumber

/-- The JavaScript values that can occur as an element of a constellation's
`lines` array (the values `JSON.parse` produces) or as a key of a `Map`.
Objects and arrays carry their identity only. -/
inductive JSValue where
  | undefined
  | null
  | bool (b : Bool)
  | number (n : JSNumber)
  | string (s : String)
  | object (ref : Nat)
  deriving DecidableEq

/-- ToBoolean, the test an `if (v)` performs. -/
def JSValue.truthy : JSValue → Bool
  | .undefined => false
  | .null => false
  | .bool b => b
  | .number n => n.truthy
  | .string s => decide (s ≠ "")
  | .object _ => true

/-- A `THREE.Vector3`. -/
structure Vector3 (α : Type) where
  x : α
  y : α
  z : α
  deriving DecidableEq

/-! ## `Map` -/

/-- A JavaScript `Map`: the entries in insertion order, keys pairwise distinct. -/
abbrev JSMap (κ ν : Type) := List (κ × ν)

/-- The method `Map.prototype.get`; `none` is `undefined`. -/
def mapGet {κ ν : Type} [DecidableEq κ] : JSMap κ ν → κ → Option ν
  | [], _ => none
  | (k', v) :: m, k => if k' = k then some v else mapGet m k

/-- The method `Map.prototype.has`. -/
def mapHas {κ ν : Type} [DecidableEq κ] (m : JSMap κ ν) (k : κ) : Bool :=
  (mapGet m k).isSome

/-- The method `Map.prototype.set`: an existing key keeps its place and gets the
new value, a new key is appended. -/
def mapSet {κ ν : Type} [DecidableEq κ] : JSMap κ ν → κ → ν → JSMap κ ν
  | [], k, v => [(k, v)]
  | (k', v') :: m, k, v => if k' = k then (k, v) :: m else (k', v') :: mapSet m k v

/-! ## The scene objects the loaders create -/

/-- A `THREE.Line` built by `setFromPoints([a, b])`. -/
structure Line (α : Type) where
  a : Vector3 α
  b : Vector3 α
  deriving DecidableEq

/-- A label `div` appended to `document.body`. -/
structure LabelElement where
  className : String
  textContent : String
  deriving DecidableEq

/-- An entry `{ label, position }` of the `starLabels` map. -/
structure LabelEntry (α : Type) where
  label : LabelElement
  position : Vector3 α
  deriving DecidableEq

/-- The part of the page and scene that the label and constellation code
writes: the `div`s appended to `document.body`, the `starLabels` map, the
children of `constellationsGroup` (name and lines of each group) and the
counter `validConnections`. -/
structure Scene (α : Type) where
  body : List LabelElement
  starLabels : JSMap String (LabelEntry α)
  constellationsGroup : List (String × List (Line α))
  validConnections : Nat

/-- The scene before anything is loaded. -/
def Scene.empty (α : Type) : Scene α := ⟨[], [], [], 0⟩

/-- The function `createStarLabel(name, position)`. -/
def createStarLabel {α : Type} (s : Scene α) (name : String) (position : Vector3 α) :
    Scene α :=
  let label : LabelElement := ⟨"star-label", name⟩
  { s with body := s.body ++ [label],
           starLabels := mapSet s.starLabels name ⟨label, position⟩ }

/-- The function `createConstellationLabel(name, position)`. -/
def createConstellationLabel {α : Type} (s : Scene α) (name : String)
    (position : Vector3 α) : Scene α :=
  let label : LabelElement := ⟨"constellation-label", name⟩
  { s with body := s.body ++ [label],
           starLabels := mapSet s.starLabels ("constellation-" ++ name) ⟨label, position⟩ }

/-! ## `loadConstellations` -/

/-- One element `{ name, lines }` of `constellation-lines.json`. -/
structure Constellation where
  name : String
  lines : List JSValue

/-- The variables of the inner `for` loop of `loadConstellations`: the array
`lines` and `prevValidPos` (`none` is `null`). -/
structure WalkState (α : Type) where
  lines : List (Line α)
  prevValidPos : Option (Vector3 α)

/-- The state the inner loop starts from: `lines = []`, `prevValidPos = null`. -/
def WalkState.init (α : Type) : WalkState α := ⟨[], none⟩

/-- One iteration of the inner loop, for the identifier `hip`.  `starHipMap.has`
followed by `starHipMap.get` is the one `match`; a stored position is an object,
so `if (prevValidPos)` tests for `null` only. -/
def walkStep {α : Type} (starHipMap : JSMap JSValue (Vector3 α)) (st : WalkState α)
    (hip : JSValue) : WalkState α :=
  match mapGet starHipMap hip with
  | some currentPos =>
    match st.prevValidPos with
    | some prev => ⟨st.lines ++ [⟨prev, currentPos⟩], some currentPos⟩
    | none => ⟨st.lines, some currentPos⟩
  | none => ⟨st.lines, none⟩

/-- The inner loop of `loadConstellations` over one identifier list. -/
def walk {α : Type} (starHipMap : JSMap JSValue (Vector3 α)) (lines : List JSValue) :
    WalkState α :=
  lines.foldl (walkStep starHipMap) (WalkState.init α)

/-- The body of `constellations.forEach` for one constellation. -/
def processConstellation {α : Type} (starHipMap : JSMap JSValue (Vector3 α))
    (s : Scene α) (constellation : Constellation) : Scene α :=
  let lines := (walk starHipMap constellation.lines).lines
  let s := { s with validConnections := s.validConnections + lines.length }
  if lines.length > 0 then
    let s := { s with
      constellationsGroup := s.constellationsGroup ++ [(constellation.name, lines)] }
    match constellation.lines.find? (mapHas starHipMap) with
    | some firstValidStar =>
      if firstValidStar.truthy then
        match mapGet starHipMap firstValidStar with
        | some position => createConstellationLabel s constellation.name position
        | none => s
      else s
    | none => s
  else s

/-- The `forEach` of `loadConstellations` over the parsed JSON document. -/
def loadConstellations {α : Type} (starHipMap : JSMap JSValue (Vector3 α))
    (s : Scene α) (constellations : List Constellation) : Scene α :=
  constellations.foldl (processConstellation starHipMap) s

/-! ## Strings -/

/-- The split of a character sequence at every occurrence of `sep`; `acc` holds
the characters of the piece being read, last one first. -/
def splitChars (sep : Char) : List Char → List Char → List (List Char)
  | acc, [] => [acc.reverse]
  | acc, c :: cs =>
    if c = sep then acc.reverse :: splitChars sep [] cs
    else splitChars sep (c :: acc) cs

/-- The call `s.split(sep)` for a one-character separator. -/
def jsSplit (s : String) (sep : Char) : List String :=
  (splitChars sep [] s.data).map String.mk

/-- The call `c.toUpperCase()` on the one-character string `spectral[0]`, as far
as the `switch` of `getStarColor` can tell results apart: ASCII letters are
upper-cased, the two other characters whose upper case is an ASCII letter
(dotless i, long s) go to that letter, and every other character stands for its
own upper case, which is never an ASCII letter. -/
def toUpperCase (c : Char) : Char :=
  if c = 'ı' then 'I' else if c = 'ſ' then 'S' else c.toUpper

/-- The function `getStarColor(spectral)`; `none` is a missing field. -/
def getStarColor (spectral : Option String) : String :=
  match spectral with
  | none => "#ffffff"
  | some s =>
    match s.data with
    | [] => "#ffffff"
    | c :: _ =>
      let type := toUpperCase c
      if type = 'O' then "#9bb0ff"
      else if type = 'B' then "#aabfff"
      else if type = 'A' then "#cad7ff"
      else if type = 'F' then "#f8f7ff"
      else if type = 'G' then "#fff4ea"
      else if type = 'K' then "#ffd2a1"
      else if type = 'M' then "#ffcc6f"
      else "#ffffff"

/-! ## `loadStars` -/

/-- The floating-point operations the position computation uses. -/
structure FloatOps (α : Type) where
  mul : α → α → α
  sub : α → α → α
  div : α → α → α
  cos : α → α
  sin : α → α
  PI : α

/-- The built-ins `loadStars` calls: `parseFloat`, `parseInt`, the arithmetic of
Numbers, and `new THREE.Color(style)` read as its `r`, `g`, `b`. -/
structure Engine where
  parseFloat : String → JSNumber
  parseInt : String → JSNumber
  float : FloatOps JSNumber
  color : String → Vector3 JSNumber

/-- Lines 148-157 of `main.js`: the position computed from the parsed right
ascension, declination and distance. -/
def starPosition {α : Type} [NatCast α] (F : FloatOps α) (raNum decNum dist : α) :
    Vector3 α :=
  let distance := F.mul dist ((8 : ℕ) : α)
  let phi := F.sub (F.div (F.mul raNum F.PI) ((12 : ℕ) : α)) F.PI
  let theta := F.div (F.mul decNum F.PI) ((180 : ℕ) : α)
  let x := F.mul (F.mul distance (F.cos theta)) (F.cos phi)
  let y := F.mul distance (F.sin theta)
  let z := F.mul (F.mul distance (F.cos theta)) (F.sin phi)
  ⟨x, y, z⟩

/-- An element `{ name, position }` of `starsToLabel`. -/
structure StarToLabel where
  name : String
  position : Vector3 JSNumber
  deriving DecidableEq

/-- The variables the row loop of `loadStars` writes: the arrays `positions`,
`colors` and `starsToLabel`, and the module-level `starHipMap`. -/
structure StarState where
  positions : List JSNumber
  colors : List JSNumber
  starsToLabel : List StarToLabel
  starHipMap : JSMap JSValue (Vector3 JSNumber)

/-- The state before the first row: three empty arrays and the empty map. -/
def StarState.init : StarState := ⟨[], [], [], []⟩

/-- The magnitude cutoff of line 146. -/
def magCutoff : JSNumber := .fin 7

/-- The labelling threshold of line 167. -/
def labelCutoff : JSNumber := .fin (5 / 2)

/-- The body of the row loop of `loadStars` (lines 145-169) for one row.  The
destructuring reads the slots 1, 6, 7, 8, 9, 10 and 16 of `row.split(',')`;
`!field` holds for a missing slot and for the empty string. -/
def starRow (E : Engine) (st : StarState) (row : String) : StarState :=
  let f := jsSplit row ','
  match f[7]?, f[8]?, f[9]?, f[10]? with
  | some ra, some dec, some dist, some mag =>
    if ra = "" ∨ dec = "" ∨ dist = "" ∨ mag = "" ∨ (E.parseFloat mag).gt magCutoff then st
    else
      let p := starPosition E.float (E.parseFloat ra) (E.parseFloat dec) (E.parseFloat dist)
      let color := E.color (getStarColor f[16]?)
      let starHipMap :=
        match f[1]? with
        | some hip =>
          if hip ≠ "" then mapSet st.starHipMap (.number (E.parseInt hip)) p
          else st.starHipMap
        | none => st.starHipMap
      let starsToLabel :=
        match f[6]? with
        | some proper =>
          if proper ≠ "" ∧ (E.parseFloat mag).lt labelCutoff then
            st.starsToLabel ++ [⟨proper, p⟩]
          else st.starsToLabel
        | none => st.starsToLabel
      { positions := st.positions ++ [p.x, p.y, p.z],
        colors := st.colors ++ [color.x, color.y, color.z],
        starsToLabel := starsToLabel,
        starHipMap := starHipMap }
  | _, _, _, _ => st

/-- The rows of a catalog text: `data.split('\n').slice(1)`. -/
def dataRows (data : String) : List String :=
  (jsSplit data '\n').drop 1

/-- The row loop of `loadStars` over a catalog text. -/
def loadStarsRows (E : Engine) (data : String) : StarState :=
  (dataRows data).foldl (starRow E) StarState.init

/-- The loop `for (const star of starsToLabel) createStarLabel(...)`. -/
def labelStars (s : Scene JSNumber) (starsToLabel : List StarToLabel) : Scene JSNumber :=
  starsToLabel.foldl (fun s star => createStarLabel s star.name star.position) s

/-- What `loadStars` leaves behind for a catalog text and a constellation
document: the loop variables, and the scene after the star labels and
`loadConstellations`. -/
def loadStars (E : Engine) (data : String) (constellations : List Constellation) :
    StarState × Scene JSNumber :=
  let st := loadStarsRows E data
  let scene := labelStars (Scene.empty JSNumber) st.starsToLabel
  (st, loadConstellations st.starHipMap scene constellations)

/-! ## Double-precision arithmetic

The arithmetic operators of JavaScript compute the exact result and round it to
the nearest binary64 value, ties to the even significand, overflowing to an
infinity. -/

/-- The position of the leading binary digit of `n`, by halving at most `fuel`
times. -/
def log2Fuel : ℕ → ℕ → ℕ
  | 0, _ => 0
  | fuel + 1, n => if n < 2 then 0 else log2Fuel fuel (n / 2) + 1

/-- The position of the leading binary digit of `n`. -/
def floorLog2 (n : ℕ) : ℕ := log2Fuel n n

/-- The power of two with exponent `e`. -/
def pow2 (e : ℤ) : ℚ :=
  if 0 ≤ e then ((2 ^ e.toNat : ℕ) : ℚ) else 1 / ((2 ^ (-e).toNat : ℕ) : ℚ)

/-- The binary exponent of a positive rational `q`: the `e` with
`2 ^ e ≤ q < 2 ^ (e + 1)`. -/
def binade (q : ℚ) : ℤ :=
  let e : ℤ := (floorLog2 q.num.natAbs : ℤ) - (floorLog2 q.den : ℤ)
  if pow2 e ≤ q then e else e - 1

/-- The nearest integer, a tie going to the even one. -/
def roundHalfEven (t : ℚ) : ℤ :=
  let f := ⌊t⌋
  if t - f < 1 / 2 then f
  else if 1 / 2 < t - f then f + 1
  else if f % 2 = 0 then f else f + 1

/-- The spacing of the binary64 values around a positive rational: 52 binary
digits below its exponent, the exponent being at least -1022. -/
def ulp (a : ℚ) : ℚ := pow2 (max (binade a) (-1022) - 52)

/-- The nearest multiple of the spacing to a positive rational. -/
def roundPos (a : ℚ) : ℚ := (roundHalfEven (a / ulp a) : ℚ) * ulp a

/-- The binary64 rounding of an exact result. -/
def roundDouble (q : ℚ) : JSNumber :=
  if q = 0 then .fin 0
  else if 0 < q then (if roundPos q < pow2 1024 then .fin (roundPos q) else .posInf)
  else (if roundPos (-q) < pow2 1024 then .fin (-roundPos (-q)) else .negInf)

/-! ## `updateLabels` -/

namespace JSNumber

/-- Unary minus. -/
def neg : JSNumber → JSNumber
  | nan => nan
  | posInf => negInf
  | negInf => posInf
  | fin q => fin (-q)

/-- The operator `+` on Numbers. -/
def add : JSNumber → JSNumber → JSNumber
  | fin a, fin b => roundDouble (a + b)
  | nan, _ => nan
  | _, nan => nan
  | posInf, negInf => nan
  | negInf, posInf => nan
  | posInf, _ => posInf
  | negInf, _ => negInf
  | fin _, posInf => posInf
  | fin _, negInf => negInf

/-- An infinity of the given sign times `b`. -/
def infMul (positive : Bool) : JSNumber → JSNumber
  | nan => nan
  | posInf => if positive then posInf else negInf
  | negInf => if positive then negInf else posInf
  | fin q =>
    if q = 0 then nan
    else if decide (0 < q) = positive then posInf else negInf

/-- The operator `*` on Numbers. -/
def mul : JSNumber → JSNumber → JSNumber
  | fin a, fin b => roundDouble (a * b)
  | posInf, b => infMul true b
  | negInf, b => infMul false b
  | a, posInf => infMul true a
  | a, negInf => infMul false a
  | _, _ => nan

end JSNumber

/-- The literal `0.5`. -/
def half : JSNumber := .fin (1 / 2)

/-- What `updateLabels` writes to one label's style: the pixel offsets of the
second `translate(...)` and the opacity. -/
structure LabelStyle where
  x : JSNumber
  y : JSNumber
  opacity : String
  deriving DecidableEq

/-- The callback of `starLabels.forEach` in `updateLabels` for one entry.
The parameter `project` is `v => v.clone().project(camera)`; `innerWidth` and
`innerHeight` are the window's. -/
def updateLabel (project : Vector3 JSNumber → Vector3 JSNumber)
    (innerWidth innerHeight : JSNumber) (entry : LabelEntry JSNumber) : LabelStyle :=
  let proj := project entry.position
  let x := ((proj.x.mul half).add half).mul innerWidth
  let y := ((proj.y.neg.mul half).add half).mul innerHeight
  ⟨x, y, if proj.z.lt (.fin 1) then "1" else "0"⟩

/-- The function `updateLabels`: the style written for every entry of
`starLabels`, by key. -/
def updateLabels (project : Vector3 JSNumber → Vector3 JSNumber)
    (innerWidth innerHeight : JSNumber) (starLabels : JSMap String (LabelEntry JSNumber)) :
    List (String × LabelStyle) :=
  starLabels.map fun e => (e.1, updateLabel project innerWidth innerHeight e.2)

/-! ## A reference engine

A concrete `Engine` on which the loaders can be run on small inputs.  It
reads decimal literals and computes in double arithmetic, every result rounded
to binary64; its trigonometric functions are polynomial approximations, exact
at 0.  It serves the worked examples only: the general properties below hold
for every engine. -/

/-- White space as `parseFloat` and `parseInt` skip it. -/
def isJSWhiteSpace (c : Char) : Bool :=
  c.toNat ∈ [9, 10, 11, 12, 13, 32, 160, 5760, 8232, 8233, 8239, 8287, 12288, 65279]
    || (8192 ≤ c.toNat && c.toNat ≤ 8202)

/-- The number a string of decimal digits denotes. -/
def digitsValue (ds : List Char) : ℕ :=
  ds.foldl (fun n d => 10 * n + (d.toNat - 48)) 0

/-- A leading sign: whether it is a minus, and what follows it. -/
def readSign : List Char → Bool × List Char
  | '-' :: r => (true, r)
  | '+' :: r => (false, r)
  | cs => (false, cs)

/-- The exponent part in front of `cs`, zero when there is none. -/
def readExponent (cs : List Char) : ℤ :=
  match cs with
  | c :: r =>
    if c = 'e' ∨ c = 'E' then
      let sr := readSign r
      let ds := sr.2.takeWhile Char.isDigit
      if ds = [] then 0 else if sr.1 then -(digitsValue ds : ℤ) else (digitsValue ds : ℤ)
    else 0
  | [] => 0

/-- The power of ten with exponent `e`. -/
def pow10 (e : ℤ) : ℚ :=
  if 0 ≤ e then ((10 ^ e.toNat : ℕ) : ℚ) else 1 / ((10 ^ (-e).toNat : ℕ) : ℚ)

/-- The built-in `parseFloat`: the binary64 value of the longest prefix that is a
decimal literal, NaN when there is none. -/
def refParseFloat (s : String) : JSNumber :=
  let sr := readSign (s.data.dropWhile isJSWhiteSpace)
  match sr.2 with
  | 'I' :: 'n' :: 'f' :: 'i' :: 'n' :: 'i' :: 't' :: 'y' :: _ =>
    if sr.1 then .negInf else .posInf
  | cs =>
    let ip := cs.takeWhile Char.isDigit
    let r1 := cs.dropWhile Char.isDigit
    let fp := match r1 with
      | '.' :: r => r.takeWhile Char.isDigit
      | _ => []
    let r2 := match r1 with
      | '.' :: r => r.dropWhile Char.isDigit
      | _ => r1
    if ip = [] ∧ fp = [] then .nan
    else
      let m : ℚ := (digitsValue (ip ++ fp) : ℚ) * pow10 (readExponent r2 - fp.length)
      roundDouble (if sr.1 then -m else m)

/-- The value of a hexadecimal digit. -/
def hexValue (c : Char) : ℕ :=
  if c.isDigit then c.toNat - 48
  else if 97 ≤ c.toNat ∧ c.toNat ≤ 102 then c.toNat - 87
  else if 65 ≤ c.toNat ∧ c.toNat ≤ 70 then c.toNat - 55
  else 0

/-- Whether a character is a hexadecimal digit. -/
def isHexDigit (c : Char) : Bool :=
  c.isDigit || (97 ≤ c.toNat && c.toNat ≤ 102) || (65 ≤ c.toNat && c.toNat ≤ 70)

/-- The number a string of hexadecimal digits denotes. -/
def hexDigitsValue (ds : List Char) : ℕ :=
  ds.foldl (fun n d => 16 * n + hexValue d) 0

/-- The digits `parseInt` reads without a radix argument and their value:
hexadecimal after `0x` or `0X`, decimal otherwise. -/
def readInteger : List Char → List Char × ℕ
  | '0' :: 'x' :: r => (r.takeWhile isHexDigit, hexDigitsValue (r.takeWhile isHexDigit))
  | '0' :: 'X' :: r => (r.takeWhile isHexDigit, hexDigitsValue (r.takeWhile isHexDigit))
  | cs => (cs.takeWhile Char.isDigit, digitsValue (cs.takeWhile Char.isDigit))

/-- The built-in `parseInt` without a radix: the binary64 value of the leading
run of digits, NaN when there is none. -/
def refParseInt (s : String) : JSNumber :=
  let sr := readSign (s.data.dropWhile isJSWhiteSpace)
  let dv := readInteger sr.2
  if dv.1 = [] then .nan
  else roundDouble (if sr.1 then -(dv.2 : ℚ) else (dv.2 : ℚ))

/-- The constructor `new THREE.Color("#rrggbb")` read as `r`, `g`, `b`; white, the
constructor's default, for any other string. -/
def refColor (s : String) : Vector3 JSNumber :=
  match s.data with
  | ['#', a, b, c, d, e, f] =>
    ⟨roundDouble ((16 * hexValue a + hexValue b : ℕ) / 255),
     roundDouble ((16 * hexValue c + hexValue d : ℕ) / 255),
     roundDouble ((16 * hexValue e + hexValue f : ℕ) / 255)⟩
  | _ => ⟨.fin 1, .fin 1, .fin 1⟩

/-- Double arithmetic; `Math.cos` and `Math.sin` by their Taylor polynomials of
degree 4 and 5, rounded, NaN outside the finite numbers; `Math.PI` the double
nearest to the circle constant.  Division rounds the exact quotient for a finite
non-zero divisor (the loader divides by 12 and 180) and is NaN otherwise. -/
def refFloat : FloatOps JSNumber where
  mul := JSNumber.mul
  sub := fun a b => a.add b.neg
  div := fun a b =>
    match b with
    | .fin q =>
      if q = 0 then .nan
      else match a with
        | .fin p => roundDouble (p / q)
        | _ => a.mul (.fin q)
    | _ => .nan
  cos := fun a =>
    match a with
    | .fin q => roundDouble (1 - q ^ 2 / 2 + q ^ 4 / 24)
    | _ => .nan
  sin := fun a =>
    match a with
    | .fin q => roundDouble (q - q ^ 3 / 6 + q ^ 5 / 120)
    | _ => .nan
  PI := .fin (884279719003555 / 281474976710656)

/-- The reference engine. -/
def refEngine : Engine := ⟨refParseFloat, refParseInt, refFloat, refColor⟩

/-! ## The words of the specification -/

/-- Slot `i` of `row.split(',')`. -/
def rowField (row : String) (i : ℕ) : Option String :=
  (jsSplit row ',')[i]?

/-- A field that is there and not empty. -/
def present (field : Option String) : Bool :=
  match field with
  | some s => decide (s ≠ "")
  | none => false

/-- The text of a field, empty when the field is missing. -/
def fieldText (row : String) (i : ℕ) : String :=
  (rowField row i).getD ""

/-- A row is in the point set: `ra`, `dec`, `dist` and `mag` are present and the
parsed magnitude is not above the cutoff. -/
def rowIncluded (E : Engine) (row : String) : Bool :=
  present (rowField row 7) && present (rowField row 8) && present (rowField row 9)
    && present (rowField row 10) && !(E.parseFloat (fieldText row 10)).gt magCutoff

/-- The position of a row: the position computed from its parsed `ra`, `dec`
and `dist` fields. -/
def rowPosition (E : Engine) (row : String) : Vector3 JSNumber :=
  starPosition E.float (E.parseFloat (fieldText row 7)) (E.parseFloat (fieldText row 8))
    (E.parseFloat (fieldText row 9))

/-- The colour of a row: the table colour of its spectral class. -/
def rowColor (E : Engine) (row : String) : Vector3 JSNumber :=
  E.color (getStarColor (rowField row 16))

/-- A row is labelled: it is in the point set, has a proper name, and its
parsed magnitude is below the labelling threshold. -/
def rowLabelled (E : Engine) (row : String) : Bool :=
  rowIncluded E row && present (rowField row 6)
    && (E.parseFloat (fieldText row 10)).lt labelCutoff

/-- A row sets the lookup key `h`: it is in the point set, its `hip` field is
present, and the parsed `hip` is `h`. -/
def rowKeys (E : Engine) (h : JSValue) (row : String) : Bool :=
  rowIncluded E row && present (rowField row 1)
    && decide (JSValue.number (E.parseInt (fieldText row 1)) = h)

/-- The adjacent pairs of an identifier list whose two identifiers both resolve,
each as the segment between the two looked-up positions, in list order. -/
def resolvedPairs {α : Type} (M : JSMap JSValue (Vector3 α)) (L : List JSValue) :
    List (Line α) :=
  (L.zip L.tail).filterMap fun ab =>
    match mapGet M ab.1, mapGet M ab.2 with
    | some p, some q => some ⟨p, q⟩
    | _, _ => none

/-- The segment between two looked-up positions, when both are there. -/
def segmentOf {α : Type} (prev cur : Option (Vector3 α)) : List (Line α) :=
  match prev, cur with
  | some p, some q => [⟨p, q⟩]
  | _, _ => []

/-- The segments the inner loop adds when it continues over `L` with
`prevValidPos = prev`. -/
def segmentsFrom {α : Type} (M : JSMap JSValue (Vector3 α)) :
    Option (Vector3 α) → List JSValue → List (Line α)
  | _, [] => []
  | prev, b :: L => segmentOf prev (mapGet M b) ++ segmentsFrom M (mapGet M b) L

/-- What an included row adds to the loop variables of `loadStars`: one point,
one colour, the lookup entry when the row has a `hip`, the label entry when the
row is labelled. -/
def addRow (E : Engine) (st : StarState) (row : String) : StarState :=
  let p := rowPosition E row
  let c := rowColor E row
  { positions := st.positions ++ [p.x, p.y, p.z],
    colors := st.colors ++ [c.x, c.y, c.z],
    starsToLabel :=
      if rowLabelled E row then st.starsToLabel ++ [⟨fieldText row 6, p⟩]
      else st.starsToLabel,
    starHipMap :=
      if present (rowField row 1) then
        mapSet st.starHipMap (.number (E.parseInt (fieldText row 1))) p
      else st.starHipMap }

/-- The three entries one point contributes to a flat buffer. -/
def pointOf (p : Vector3 JSNumber) : List JSNumber := [p.x, p.y, p.z]

/-- The label entry of a row: its proper name with its position. -/
def rowLabel (E : Engine) (row : String) : StarToLabel :=
  ⟨fieldText row 6, rowPosition E row⟩

/-- The colour table as the specification words it: the colour of the class
letter, in either case, and white for every other first character. -/
def tableColor (c : Char) : String :=
  if c = 'O' ∨ c = 'o' then "#9bb0ff"
  else if c = 'B' ∨ c = 'b' then "#aabfff"
  else if c = 'A' ∨ c = 'a' then "#cad7ff"
  else if c = 'F' ∨ c = 'f' then "#f8f7ff"
  else if c = 'G' ∨ c = 'g' then "#fff4ea"
  else if c = 'K' ∨ c = 'k' then "#ffd2a1"
  else if c = 'M' ∨ c = 'm' then "#ffcc6f"
  else "#ffffff"

/-- A small catalog: a header, a bright named star of class G, an empty line, a
star above the magnitude cutoff, a star exactly at the cutoff, and a row without
a distance. -/
def fixtureCatalog : String :=
  "id,hip,hd,hr,gl,bf,proper,ra,dec,dist,mag,absmag,a,b,c,ci,spect\n" ++
  "1,42,,,,,Sol,12,0,1,1,,,,,,G2V\n" ++
  "\n" ++
  "2,43,,,,,Faint,1,1,1,7.5\n" ++
  "3,7,,,,,Dim,1,1,1,7\n" ++
  "4,8,,,,,Lost,1,1,,1"

/-! ## Properties of `loadConstellations` -/

theorem walkStep_prevValidPos {α : Type} (M : JSMap JSValue (Vector3 α)) (st : WalkState α)
    (hip : JSValue) : (walkStep M st hip).prevValidPos = mapGet M hip := by
  unfold walkStep
  cases mapGet M hip <;> cases st.prevValidPos <;> rfl

theorem walkStep_lines {α : Type} (M : JSMap JSValue (Vector3 α)) (st : WalkState α)
    (hip : JSValue) :
    (walkStep M st hip).lines = st.lines ++ segmentOf st.prevValidPos (mapGet M hip) := by
  unfold walkStep segmentOf
  cases mapGet M hip <;> cases st.prevValidPos <;> simp

theorem foldl_walkStep_lines {α : Type} (M : JSMap JSValue (Vector3 α)) (L : List JSValue) :
    ∀ st : WalkState α,
      (L.foldl (walkStep M) st).lines = st.lines ++ segmentsFrom M st.prevValidPos L := by
  induction L with
  | nil => intro st; simp [segmentsFrom]
  | cons b L ih =>
    intro st
    rw [List.foldl_cons, ih, walkStep_lines, walkStep_prevValidPos, segmentsFrom,
      List.append_assoc]

theorem resolvedPairs_cons {α : Type} (M : JSMap JSValue (Vector3 α)) (a : JSValue)
    (L : List JSValue) : resolvedPairs M (a :: L) = segmentsFrom M (mapGet M a) L := by
  induction L generalizing a with
  | nil => simp [resolvedPairs, segmentsFrom]
  | cons b L ih =>
    have h := ih b
    unfold resolvedPairs at h ⊢
    rw [segmentsFrom, ← h]
    simp only [List.tail_cons, List.zip_cons_cons, List.filterMap_cons, segmentOf]
    cases mapGet M a <;> cases mapGet M b <;> simp

theorem walk_lines {α : Type} (M : JSMap JSValue (Vector3 α)) (L : List JSValue) :
    (walk M L).lines = resolvedPairs M L := by
  cases L with
  | nil => simp [walk, resolvedPairs, WalkState.init]
  | cons a L =>
    rw [resolvedPairs_cons, walk, List.foldl_cons, foldl_walkStep_lines,
      walkStep_prevValidPos, walkStep_lines]
    simp [WalkState.init, segmentOf]

theorem walk_take_succ {α : Type} (M : JSMap JSValue (Vector3 α)) (L : List JSValue)
    (i : ℕ) (a : JSValue) (h : L[i]? = some a) :
    walk M (L.take (i + 1)) = walkStep M (walk M (L.take i)) a := by
  rw [List.take_succ, h]
  simp [walk, List.foldl_append]

/-- C1: the iteration for index 0 emits nothing; the iteration for index `i + 1`
emits a segment exactly when `L[i]` and `L[i + 1]` are both keys of the lookup, and
that segment joins their two positions; so the segments emitted for `L` are, in
order, the adjacent pairs of `L` with both identifiers resolved. -/
theorem loadConstellations_segment_iff_both_resolved {α : Type}
    (M : JSMap JSValue (Vector3 α)) (L : List JSValue) :
    (walk M (L.take 1)).lines = [] ∧
    (∀ i a b, L[i]? = some a → L[i + 1]? = some b →
      (∀ p q, mapGet M a = some p → mapGet M b = some q →
        (walk M (L.take (i + 2))).lines = (walk M (L.take (i + 1))).lines ++ [⟨p, q⟩]) ∧
      (mapHas M a = false ∨ mapHas M b = false →
        (walk M (L.take (i + 2))).lines = (walk M (L.take (i + 1))).lines)) ∧
    (walk M L).lines = resolvedPairs M L := by
  refine ⟨?_, ?_, walk_lines M L⟩
  · cases L with
    | nil => simp [walk, WalkState.init]
    | cons a L =>
      simp [walk, WalkState.init, walkStep_lines, segmentOf]
  · intro i a b ha hb
    have h1 := walk_take_succ M L (i + 1) b hb
    have h0 := walk_take_succ M L i a ha
    have hp : (walk M (L.take (i + 1))).prevValidPos = mapGet M a := by
      rw [h0, walkStep_prevValidPos]
    constructor
    · intro p q hpa hqb
      rw [show i + 2 = i + 1 + 1 from rfl, h1, walkStep_lines, hp, hpa, hqb]
      rfl
    · intro hnone
      rw [show i + 2 = i + 1 + 1 from rfl, h1, walkStep_lines, hp]
      unfold mapHas at hnone
      unfold segmentOf
      rcases hnone with h | h
      · cases hm : mapGet M a <;> simp_all
      · cases hm : mapGet M b <;> cases mapGet M a <;> simp_all

/-! ### Properties of `loadStars` -/

theorem starRow_eq (E : Engine) (st : StarState) (row : String) :
    starRow E st row = if rowIncluded E row then addRow E st row else st := by
  unfold starRow addRow rowLabelled rowIncluded rowPosition rowColor fieldText rowField
  generalize jsSplit row ',' = f
  rcases h7 : f[7]? with _ | ra <;> rcases h8 : f[8]? with _ | dec <;>
    rcases h9 : f[9]? with _ | dist <;> rcases h10 : f[10]? with _ | mag <;>
    simp only [h7, h8, h9, h10, present, Bool.false_and, Bool.and_false, Bool.false_eq_true,
      if_false, Option.getD_some]
  by_cases hra : ra = "" <;> by_cases hdec : dec = "" <;> by_cases hdist : dist = "" <;>
    by_cases hmag : mag = "" <;> simp [hra, hdec, hdist, hmag]
  by_cases hgt : (E.parseFloat mag).gt magCutoff = true <;> simp [hgt]
  rcases h1 : f[1]? with _ | hip <;> rcases h6 : f[6]? with _ | proper <;> simp [h1, h6]

theorem mapGet_mapSet {κ ν : Type} [DecidableEq κ] (m : JSMap κ ν) (k k' : κ) (v : ν) :
    mapGet (mapSet m k v) k' = if k = k' then some v else mapGet m k' := by
  induction m with
  | nil => simp [mapSet, mapGet]
  | cons e m ih =>
    obtain ⟨k0, v0⟩ := e
    by_cases h0 : k0 = k
    · subst h0
      by_cases h1 : k0 = k' <;> simp [mapSet, mapGet, h1]
    · by_cases h1 : k0 = k'
      · subst h1
        have : ¬ k = k0 := fun h => h0 h.symm
        simp [mapSet, mapGet, h0, this]
      · simp [mapSet, mapGet, h0, h1, ih]

theorem foldl_starRow_positions (E : Engine) (rows : List String) :
    ∀ st : StarState, (rows.foldl (starRow E) st).positions =
      st.positions ++ (rows.filter (rowIncluded E)).flatMap fun r => pointOf (rowPosition E r) := by
  induction rows with
  | nil => intro st; simp
  | cons r rows ih =>
    intro st
    rw [List.foldl_cons, ih, starRow_eq]
    by_cases h : rowIncluded E r = true
    · simp [h, addRow, pointOf]
    · simp [h]

theorem foldl_starRow_colors (E : Engine) (rows : List String) :
    ∀ st : StarState, (rows.foldl (starRow E) st).colors =
      st.colors ++ (rows.filter (rowIncluded E)).flatMap fun r => pointOf (rowColor E r) := by
  induction rows with
  | nil => intro st; simp
  | cons r rows ih =>
    intro st
    rw [List.foldl_cons, ih, starRow_eq]
    by_cases h : rowIncluded E r = true
    · simp [h, addRow, pointOf]
    · simp [h]

theorem foldl_starRow_starsToLabel (E : Engine) (rows : List String) :
    ∀ st : StarState, (rows.foldl (starRow E) st).starsToLabel =
      st.starsToLabel ++ (rows.filter (rowLabelled E)).map (rowLabel E) := by
  induction rows with
  | nil => intro st; simp
  | cons r rows ih =>
    intro st
    rw [List.foldl_cons, ih, starRow_eq]
    by_cases h : rowIncluded E r = true
    · by_cases hl : rowLabelled E r = true
      · simp [h, hl, addRow, rowLabel]
      · simp [h, hl, addRow]
    · have hl : rowLabelled E r = false := by simp [rowLabelled, h]
      simp [h, hl]

theorem foldl_starRow_starHipMap (E : Engine) (h : JSValue) (rows : List String) :
    ∀ st : StarState, mapGet (rows.foldl (starRow E) st).starHipMap h =
      match (rows.filter (rowKeys E h)).getLast? with
      | some r => some (rowPosition E r)
      | none => mapGet st.starHipMap h := by
  induction rows using List.reverseRecOn with
  | nil => intro st; simp
  | append_singleton rows r ih =>
    intro st
    rw [List.foldl_append, List.foldl_cons, List.foldl_nil, starRow_eq, List.filter_append]
    by_cases hk : rowKeys E h r = true
    · have hk' := hk
      simp only [rowKeys, Bool.and_eq_true, decide_eq_true_eq] at hk'
      obtain ⟨⟨hi, hp⟩, hh⟩ := hk'
      simp [hk, hi, hp, addRow, mapGet_mapSet, hh]
    · have hf : List.filter (rowKeys E h) [r] = [] := by simp [hk]
      rw [hf, List.append_nil, ← ih]
      by_cases hi : rowIncluded E r = true
      · by_cases hp : present (rowField r 1) = true
        · have hne : ¬ JSValue.number (E.parseInt (fieldText r 1)) = h := by
            intro hh; apply hk; simp [rowKeys, hi, hp, hh]
          simp [hi, hp, addRow, mapGet_mapSet, hne]
        · simp [hi, hp, addRow]
      · simp [hi]

theorem splitChars_append_sep (sep : Char) (h rest : List Char) (hs : sep ∉ h) :
    ∀ acc, splitChars sep acc (h ++ sep :: rest) = (acc.reverse ++ h) :: splitChars sep [] rest := by
  induction h with
  | nil => intro acc; simp [splitChars]
  | cons c h ih =>
    intro acc
    have hc : ¬ c = sep := fun e => hs (by simp [e])
    have hh : sep ∉ h := fun m => hs (List.mem_cons_of_mem _ m)
    simp [splitChars, hc, ih hh]

theorem dataRows_header (header body : String) (hs : '\n' ∉ header.data) :
    dataRows (header ++ "\n" ++ body) = jsSplit body '\n' := by
  have hd : (header ++ "\n" ++ body).data = header.data ++ '\n' :: body.data := by
    simp [String.data_append]
  unfold dataRows jsSplit
  rw [hd, splitChars_append_sep _ _ _ hs]
  simp

theorem rowIncluded_of_not_present (E : Engine) (row : String)
    (h : present (rowField row 7) = false ∨ present (rowField row 8) = false ∨
      present (rowField row 9) = false ∨ present (rowField row 10) = false) :
    rowIncluded E row = false := by
  unfold rowIncluded
  rcases h with h | h | h | h <;> simp [h]

theorem rowIncluded_of_present (E : Engine) (row mag : String)
    (h7 : present (rowField row 7) = true) (h8 : present (rowField row 8) = true)
    (h9 : present (rowField row 9) = true) (h10 : rowField row 10 = some mag)
    (hm : mag ≠ "") (hgt : (E.parseFloat mag).gt magCutoff = false) :
    rowIncluded E row = true := by
  unfold rowIncluded fieldText
  rw [h7, h8, h9, h10]
  simp [present, hm, hgt]

theorem length_flatMap_pointOf {β : Type} (f : β → Vector3 JSNumber) (l : List β) :
    (l.flatMap fun r => pointOf (f r)).length = 3 * l.length := by
  induction l with
  | nil => simp
  | cons a l ih =>
    rw [List.flatMap_cons, List.length_append, ih]
    simp [pointOf]
    omega

/-- C2: the position buffer holds exactly one point for every included row, in
catalog order, and nothing else.  A row whose `ra`, `dec`, `dist` or `mag` is missing
or empty adds no point, a row whose parsed magnitude is above 7 adds no point,
and every other row adds exactly one point, a magnitude of exactly 7 included.
The rows are the lines after the first, so the header adds nothing, and an empty
line leaves the loop variables as they are. -/
theorem loadStars_point_set (E : Engine) (data : String) :
    (loadStarsRows E data).positions =
        ((dataRows data).filter (rowIncluded E)).flatMap (fun r => pointOf (rowPosition E r)) ∧
    (loadStarsRows E data).positions.length =
        3 * ((dataRows data).filter (rowIncluded E)).length ∧
    (∀ st row, present (rowField row 7) = false ∨ present (rowField row 8) = false ∨
        present (rowField row 9) = false ∨ present (rowField row 10) = false →
      (starRow E st row).positions = st.positions) ∧
    (∀ st row mag, rowField row 10 = some mag → (E.parseFloat mag).gt (.fin 7) = true →
      (starRow E st row).positions = st.positions) ∧
    (∀ st row mag, present (rowField row 7) = true → present (rowField row 8) = true →
        present (rowField row 9) = true → rowField row 10 = some mag → mag ≠ "" →
        ((E.parseFloat mag).gt (.fin 7) = false ∨ E.parseFloat mag = .fin 7) →
      (starRow E st row).positions = st.positions ++ pointOf (rowPosition E row)) ∧
    (∀ header body, '\n' ∉ header.data →
      dataRows (header ++ "\n" ++ body) = jsSplit body '\n') ∧
    (∀ st, starRow E st "" = st) := by
  refine ⟨?_, ?_, ?_, ?_, ?_, dataRows_header, ?_⟩
  · simp [loadStarsRows, foldl_starRow_positions, StarState.init]
  · simp only [loadStarsRows, foldl_starRow_positions, StarState.init, List.nil_append,
      length_flatMap_pointOf]
  · intro st row h
    rw [starRow_eq, rowIncluded_of_not_present E row h]
    simp
  · intro st row mag h10 hgt
    have : rowIncluded E row = false := by
      unfold rowIncluded fieldText magCutoff
      simp [h10, hgt]
    rw [starRow_eq, this]
    simp
  · intro st row mag h7 h8 h9 h10 hm hgt
    have hgt' : (E.parseFloat mag).gt magCutoff = false := by
      rcases hgt with h | h
      · exact h
      · rw [h]; simp [JSNumber.gt, magCutoff]
    rw [starRow_eq, rowIncluded_of_present E row mag h7 h8 h9 h10 hm hgt']
    simp [addRow, pointOf]
  · intro st
    rw [starRow_eq]
    have : rowField "" 7 = none := by decide
    simp [rowIncluded, this, present]

theorem rowKeys_iff (E : Engine) (h : JSValue) (row : String) :
    rowKeys E h row = true ↔
      rowIncluded E row = true ∧
        ∃ hip, rowField row 1 = some hip ∧ hip ≠ "" ∧ JSValue.number (E.parseInt hip) = h := by
  unfold rowKeys fieldText present
  rcases h1 : rowField row 1 with _ | hip <;> simp [and_assoc]

/-- C4: after the row loop, the lookup has the key `h` exactly when some included
row has a non-empty `hip` field that parses to `h`, and the value under `h` is the
position of the last such row; a row that is not included, or whose `hip` is
missing or empty, leaves the lookup as it is. -/
theorem starHipMap_keys_and_values (E : Engine) (data : String) (h : JSValue) :
    (mapHas (loadStarsRows E data).starHipMap h = true ↔
      ∃ row ∈ dataRows data, rowIncluded E row = true ∧
        ∃ hip, rowField row 1 = some hip ∧ hip ≠ "" ∧ JSValue.number (E.parseInt hip) = h) ∧
    mapGet (loadStarsRows E data).starHipMap h =
      (((dataRows data).filter (rowKeys E h)).getLast?).map (rowPosition E) ∧
    (∀ row, rowKeys E h row = true ↔
      rowIncluded E row = true ∧
        ∃ hip, rowField row 1 = some hip ∧ hip ≠ "" ∧ JSValue.number (E.parseInt hip) = h) ∧
    (∀ st row, rowIncluded E row = false ∨ present (rowField row 1) = false →
      (starRow E st row).starHipMap = st.starHipMap) := by
  have hget : mapGet (loadStarsRows E data).starHipMap h =
      (((dataRows data).filter (rowKeys E h)).getLast?).map (rowPosition E) := by
    rw [loadStarsRows, foldl_starRow_starHipMap]
    cases ((dataRows data).filter (rowKeys E h)).getLast? <;> simp [StarState.init, mapGet]
  refine ⟨?_, hget, rowKeys_iff E h, ?_⟩
  · rw [mapHas, hget]
    simp only [Option.isSome_map']
    constructor
    · intro hs
      obtain ⟨r, hr⟩ := Option.isSome_iff_exists.mp hs
      have hm := List.mem_of_getLast?_eq_some hr
      rw [List.mem_filter] at hm
      exact ⟨r, hm.1, (rowKeys_iff E h r).mp hm.2⟩
    · rintro ⟨r, hr, hk⟩
      have hm : r ∈ (dataRows data).filter (rowKeys E h) :=
        List.mem_filter.mpr ⟨hr, (rowKeys_iff E h r).mpr hk⟩
      cases hl : ((dataRows data).filter (rowKeys E h)).getLast? with
      | none =>
        rw [List.getLast?_eq_none_iff] at hl
        rw [hl] at hm
        exact absurd hm (List.not_mem_nil _)
      | some _ => rfl
  · intro st row hno
    rw [starRow_eq]
    rcases hno with hi | hp
    · simp [hi]
    · by_cases hi : rowIncluded E row = true <;> simp [hi, addRow, hp]

/-- C3, counterexample: the data row `1,42,,,,,,abc,0,1,1` has the unparseable
right ascension `abc`, and the loader still adds a point, a colour and the lookup
entry for `hip` 42 for it. -/
theorem unparseable_row_is_loaded :
    rowField "1,42,,,,,,abc,0,1,1" 7 = some "abc" ∧
    refParseFloat "abc" = .nan ∧
    (loadStarsRows refEngine
      "id,hip,hd,hr,gl,bf,proper,ra,dec,dist,mag\n1,42,,,,,,abc,0,1,1").positions
        = [.nan, .fin 0, .nan] ∧
    (loadStarsRows refEngine
      "id,hip,hd,hr,gl,bf,proper,ra,dec,dist,mag\n1,42,,,,,,abc,0,1,1").colors
        = [.fin 1, .fin 1, .fin 1] ∧
    mapGet (loadStarsRows refEngine
      "id,hip,hd,hr,gl,bf,proper,ra,dec,dist,mag\n1,42,,,,,,abc,0,1,1").starHipMap
        (.number (.fin 42)) = some ⟨.nan, .fin 0, .nan⟩ := by
  decide!

/-- C3, amended: a row whose `ra`, `dec`, `dist` or `mag` is missing or empty leaves
every loop variable as it is, and the catalog loads as if the row were absent.
A row whose four fields are non-empty is loaded whenever its parsed magnitude is
not above 7, and so always when the magnitude parses to NaN: it adds one point,
one colour and, with a non-empty `hip`, a lookup entry, whether or not its fields
parse. -/
theorem loadStars_skips_rows_with_missing_fields (E : Engine) :
    (∀ st row, present (rowField row 7) = false ∨ present (rowField row 8) = false ∨
        present (rowField row 9) = false ∨ present (rowField row 10) = false →
      starRow E st row = st) ∧
    (∀ pre post row, present (rowField row 7) = false ∨ present (rowField row 8) = false ∨
        present (rowField row 9) = false ∨ present (rowField row 10) = false →
      (pre ++ row :: post).foldl (starRow E) StarState.init =
        (pre ++ post).foldl (starRow E) StarState.init) ∧
    (∀ st row ra dec dist mag, rowField row 7 = some ra → rowField row 8 = some dec →
        rowField row 9 = some dist → rowField row 10 = some mag →
        ra ≠ "" → dec ≠ "" → dist ≠ "" → mag ≠ "" →
        ((E.parseFloat mag).gt (.fin 7) = false ∨ E.parseFloat mag = .nan) →
      (starRow E st row).positions = st.positions ++
          pointOf (starPosition E.float (E.parseFloat ra) (E.parseFloat dec)
            (E.parseFloat dist)) ∧
      (starRow E st row).colors = st.colors ++ pointOf (E.color (getStarColor (rowField row 16))) ∧
      ∀ hip, rowField row 1 = some hip → hip ≠ "" →
        mapGet (starRow E st row).starHipMap (.number (E.parseInt hip)) =
          some (starPosition E.float (E.parseFloat ra) (E.parseFloat dec)
            (E.parseFloat dist))) := by
  refine ⟨?_, ?_, ?_⟩
  · intro st row h
    rw [starRow_eq, rowIncluded_of_not_present E row h]
    simp
  · intro pre post row h
    have hs : ∀ st, starRow E st row = st := by
      intro st
      rw [starRow_eq, rowIncluded_of_not_present E row h]
      simp
    simp [List.foldl_append, hs]
  · intro st row ra dec dist mag h7 h8 h9 h10 hra hdec hdist hmag hgt
    have hgt' : (E.parseFloat mag).gt magCutoff = false := by
      rcases hgt with h | h
      · exact h
      · rw [h]; rfl
    have hi : rowIncluded E row = true :=
      rowIncluded_of_present E row mag (by simp [h7, present, hra]) (by simp [h8, present, hdec])
        (by simp [h9, present, hdist]) h10 hmag hgt'
    rw [starRow_eq, hi]
    refine ⟨?_, ?_, ?_⟩
    · simp [addRow, pointOf, rowPosition, fieldText, h7, h8, h9]
    · simp [addRow, pointOf, rowColor]
    · intro hip h1 hhip
      simp [addRow, h1, present, hhip, fieldText, mapGet_mapSet, rowPosition, h7, h8, h9]

/-- A row with an empty `dist` is skipped and the row after it is loaded. -/
theorem skipped_row_example :
    (loadStarsRows refEngine "h\n1,42,,,,,,1,0,,1\n2,43,,,,,,0,0,1,1").positions.length = 3 := by
  decide!

/-- C5: two included rows with the same `ra`, `dec` and `dist` fields add the same
point, whatever their other fields and whatever the loop variables hold when each
is reached; the point is the position computed from the three parsed fields. -/
theorem position_depends_on_ra_dec_dist_only (E : Engine) (row₁ row₂ : String)
    (h₁ : rowIncluded E row₁ = true) (h₂ : rowIncluded E row₂ = true)
    (hra : rowField row₁ 7 = rowField row₂ 7) (hdec : rowField row₁ 8 = rowField row₂ 8)
    (hdist : rowField row₁ 9 = rowField row₂ 9) :
    ∃ ra dec dist, rowField row₁ 7 = some ra ∧ rowField row₁ 8 = some dec ∧
      rowField row₁ 9 = some dist ∧
      ∀ st₁ st₂ : StarState,
        (starRow E st₁ row₁).positions = st₁.positions ++
          pointOf (starPosition E.float (E.parseFloat ra) (E.parseFloat dec)
            (E.parseFloat dist)) ∧
        (starRow E st₂ row₂).positions = st₂.positions ++
          pointOf (starPosition E.float (E.parseFloat ra) (E.parseFloat dec)
            (E.parseFloat dist)) := by
  have hp : ∀ i, present (rowField row₁ i) = true → ∃ s, rowField row₁ i = some s := by
    intro i hi
    cases hf : rowField row₁ i with
    | none => simp [hf, present] at hi
    | some s => exact ⟨s, rfl⟩
  have h₁' := h₁
  simp only [rowIncluded, Bool.and_eq_true] at h₁'
  obtain ⟨ra, h7⟩ := hp 7 h₁'.1.1.1.1
  obtain ⟨dec, h8⟩ := hp 8 h₁'.1.1.1.2
  obtain ⟨dist, h9⟩ := hp 9 h₁'.1.1.2
  refine ⟨ra, dec, dist, h7, h8, h9, ?_⟩
  intro st₁ st₂
  rw [starRow_eq, starRow_eq, h₁, h₂]
  constructor
  · simp [addRow, pointOf, rowPosition, fieldText, h7, h8, h9]
  · simp [addRow, pointOf, rowPosition, fieldText, ← hra, ← hdec, ← hdist, h7, h8, h9]

/-- C5, witness: a named row with a spectral class and a bare row, both included,
with the same `ra`, `dec` and `dist`. -/
theorem position_depends_on_ra_dec_dist_only_witness :
    ∃ ra dec dist, rowField "1,42,,,,,Sol,12,0,1,1,,,,,,G2V" 7 = some ra ∧
      rowField "1,42,,,,,Sol,12,0,1,1,,,,,,G2V" 8 = some dec ∧
      rowField "1,42,,,,,Sol,12,0,1,1,,,,,,G2V" 9 = some dist ∧
      ∀ st₁ st₂ : StarState,
        (starRow refEngine st₁ "1,42,,,,,Sol,12,0,1,1,,,,,,G2V").positions = st₁.positions ++
          pointOf (starPosition refEngine.float (refEngine.parseFloat ra)
            (refEngine.parseFloat dec) (refEngine.parseFloat dist)) ∧
        (starRow refEngine st₂ "2,,,,,,,12,0,1,6.5").positions = st₂.positions ++
          pointOf (starPosition refEngine.float (refEngine.parseFloat ra)
            (refEngine.parseFloat dec) (refEngine.parseFloat dist)) :=
  position_depends_on_ra_dec_dist_only refEngine "1,42,,,,,Sol,12,0,1,1,,,,,,G2V"
    "2,,,,,,,12,0,1,6.5" (by decide!) (by decide!)
    (by decide) (by decide) (by decide)

theorem labelStars_body (l : List StarToLabel) :
    ∀ s : Scene JSNumber, (labelStars s l).body =
      s.body ++ l.map fun star => (⟨"star-label", star.name⟩ : LabelElement) := by
  induction l with
  | nil => intro s; simp [labelStars]
  | cons a l ih =>
    intro s
    have := ih (createStarLabel s a.name a.position)
    simp only [labelStars] at this ⊢
    rw [List.foldl_cons, this]
    simp [createStarLabel]

theorem processConstellation_body {α : Type} (M : JSMap JSValue (Vector3 α)) (s : Scene α)
    (c : Constellation) :
    ∃ X : List LabelElement, (processConstellation M s c).body = s.body ++ X ∧
      ∀ e ∈ X, e.className = "constellation-label" := by
  unfold processConstellation
  simp only
  split
  · split
    · split
      · split
        · exact ⟨[⟨"constellation-label", c.name⟩], by simp [createConstellationLabel]⟩
        · exact ⟨[], by simp⟩
      · exact ⟨[], by simp⟩
    · exact ⟨[], by simp⟩
  · exact ⟨[], by simp⟩

theorem loadConstellations_body {α : Type} (M : JSMap JSValue (Vector3 α))
    (cs : List Constellation) :
    ∀ s : Scene α, ∃ X : List LabelElement, (loadConstellations M s cs).body = s.body ++ X ∧
      ∀ e ∈ X, e.className = "constellation-label" := by
  induction cs with
  | nil => intro s; exact ⟨[], by simp [loadConstellations]⟩
  | cons c cs ih =>
    intro s
    obtain ⟨X, hX, hXc⟩ := processConstellation_body M s c
    obtain ⟨Y, hY, hYc⟩ := ih (processConstellation M s c)
    refine ⟨X ++ Y, ?_, ?_⟩
    · simp only [loadConstellations] at hY ⊢
      rw [List.foldl_cons, hY, hX, List.append_assoc]
    · intro e he
      rcases List.mem_append.mp he with h | h
      · exact hXc e h
      · exact hYc e h

/-- C6: the list `starsToLabel` is, in catalog order, the included rows that have
a non-empty proper name and a parsed magnitude below 2.5, each with its proper
name and its position; the star labels appended to the page are one per entry, in
the same order, so their number is the number of such rows. -/
theorem labelled_stars_are_bright_named_rows (E : Engine) (data : String)
    (constellations : List Constellation) :
    (loadStars E data constellations).1.starsToLabel =
      ((dataRows data).filter (rowLabelled E)).map (rowLabel E) ∧
    (loadStars E data constellations).2.body.filter (fun e => e.className = "star-label") =
      ((dataRows data).filter (rowLabelled E)).map
        (fun row => (⟨"star-label", fieldText row 6⟩ : LabelElement)) ∧
    (loadStars E data constellations).1.starsToLabel.length =
      ((dataRows data).filter (rowLabelled E)).length ∧
    (∀ row, rowLabelled E row = true ↔
      rowIncluded E row = true ∧
        ∃ proper mag, rowField row 6 = some proper ∧ proper ≠ "" ∧
          rowField row 10 = some mag ∧ (E.parseFloat mag).lt (.fin (5 / 2)) = true) ∧
    (∀ row, rowLabel E row = ⟨fieldText row 6, rowPosition E row⟩) := by
  have hl : (loadStarsRows E data).starsToLabel =
      ((dataRows data).filter (rowLabelled E)).map (rowLabel E) := by
    simp [loadStarsRows, foldl_starRow_starsToLabel, StarState.init]
  refine ⟨hl, ?_, ?_, ?_, fun _ => rfl⟩
  · obtain ⟨X, hX, hXc⟩ := loadConstellations_body (loadStarsRows E data).starHipMap
      constellations (labelStars (Scene.empty JSNumber) (loadStarsRows E data).starsToLabel)
    simp only [loadStars]
    rw [hX, labelStars_body, hl, List.filter_append, List.filter_append]
    have h1 : X.filter (fun e => e.className = "star-label") = [] := by
      rw [List.filter_eq_nil_iff]
      intro e he
      simp [hXc e he]
    rw [h1]
    have h2 : ∀ l : List String,
        (l.map ((fun star => (⟨"star-label", star.name⟩ : LabelElement)) ∘ rowLabel E)).filter
          (fun e => e.className = "star-label") =
        l.map (fun row => (⟨"star-label", fieldText row 6⟩ : LabelElement)) := by
      intro l
      induction l with
      | nil => rfl
      | cons a l ih => simp [rowLabel] at ih ⊢; exact ih
    simpa [Scene.empty] using h2 _
  · simp [loadStars, hl]
  · intro row
    unfold rowLabelled fieldText labelCutoff
    constructor
    · intro h
      simp only [Bool.and_eq_true] at h
      obtain ⟨⟨hi, hp⟩, hlt⟩ := h
      refine ⟨hi, ?_⟩
      cases h6 : rowField row 6 with
      | none => simp [h6, present] at hp
      | some proper =>
        have hi' := hi
        simp only [rowIncluded, Bool.and_eq_true] at hi'
        cases h10 : rowField row 10 with
        | none => simp [h10, present] at hi'
        | some mag =>
          refine ⟨proper, mag, rfl, ?_, rfl, ?_⟩
          · simpa [h6, present] using hp
          · simpa [h10] using hlt
    · rintro ⟨hi, proper, mag, h6, hne, h10, hlt⟩
      simp [hi, h6, present, hne, h10, hlt]

/-! ### Properties of `getStarColor` -/

theorem getStarColor_cons (c : Char) (rest : List Char) :
    getStarColor (some ⟨c :: rest⟩) = getStarColor (some ⟨[c]⟩) := rfl

theorem getStarColor_lower (c : Char) (h : 97 ≤ c.toNat ∧ c.toNat ≤ 122) :
    getStarColor (some ⟨[c]⟩) = tableColor c := by
  rw [← Char.ofNat_toNat c]
  obtain ⟨h1, h2⟩ := h
  generalize c.toNat = n at h1 h2
  interval_cases n <;> decide

theorem getStarColor_other (c : Char) (h : ¬ (97 ≤ c.toNat ∧ c.toNat ≤ 122)) :
    getStarColor (some ⟨[c]⟩) = tableColor c := by
  have hne : ∀ d : Char, 97 ≤ d.toNat ∧ d.toNat ≤ 122 → c ≠ d := by
    intro d hd e; exact h (e ▸ hd)
  have hu : c.toUpper = c := by
    unfold Char.toUpper
    simp only [ge_iff_le]
    rw [if_neg h]
  unfold getStarColor tableColor toUpperCase
  simp only [hu, hne 'o' (by decide), hne 'b' (by decide), hne 'a' (by decide),
    hne 'f' (by decide), hne 'g' (by decide), hne 'k' (by decide), hne 'm' (by decide),
    or_false]
  by_cases h1 : c = 'ı'
  · subst h1; decide
  · by_cases h2 : c = 'ſ'
    · subst h2; decide
    · simp only [h1, h2, if_false]

/-- C7: `getStarColor` gives white for a missing or empty class, and for every
other class the table colour of its first character alone: the fixed colour of
O, B, A, F, G, K or M in either case, white for any other character. -/
theorem getStarColor_first_letter :
    getStarColor none = "#ffffff" ∧ getStarColor (some "") = "#ffffff" ∧
    (∀ (c : Char) (rest : List Char), getStarColor (some ⟨c :: rest⟩) = tableColor c) ∧
    tableColor 'O' = "#9bb0ff" ∧ tableColor 'o' = "#9bb0ff" ∧
    tableColor 'B' = "#aabfff" ∧ tableColor 'b' = "#aabfff" ∧
    tableColor 'A' = "#cad7ff" ∧ tableColor 'a' = "#cad7ff" ∧
    tableColor 'F' = "#f8f7ff" ∧ tableColor 'f' = "#f8f7ff" ∧
    tableColor 'G' = "#fff4ea" ∧ tableColor 'g' = "#fff4ea" ∧
    tableColor 'K' = "#ffd2a1" ∧ tableColor 'k' = "#ffd2a1" ∧
    tableColor 'M' = "#ffcc6f" ∧ tableColor 'm' = "#ffcc6f" ∧
    (∀ c : Char, c ∉ ['O', 'o', 'B', 'b', 'A', 'a', 'F', 'f', 'G', 'g', 'K', 'k', 'M', 'm'] →
      tableColor c = "#ffffff") := by
  refine ⟨rfl, rfl, ?_, by decide, by decide, by decide, by decide, by decide, by decide,
    by decide, by decide, by decide, by decide, by decide, by decide, by decide, by decide, ?_⟩
  · intro c rest
    rw [getStarColor_cons]
    by_cases h : 97 ≤ c.toNat ∧ c.toNat ≤ 122
    · exact getStarColor_lower c h
    · exact getStarColor_other c h
  · intro c hc
    simp only [List.mem_cons, List.mem_singleton, List.not_mem_nil, or_false, not_or] at hc
    obtain ⟨h1, h2, h3, h4, h5, h6, h7, h8, h9, h10, h11, h12, h13, h14⟩ := hc
    simp [tableColor, h1, h2, h3, h4, h5, h6, h7, h8, h9, h10, h11, h12, h13, h14]

/-! ### The position formula -/

theorem starPosition_real_on_sphere (raNum decNum dist : ℝ) :
    (starPosition ⟨(· * ·), (· - ·), (· / ·), Real.cos, Real.sin, Real.pi⟩ raNum decNum dist).x ^ 2
      + (starPosition ⟨(· * ·), (· - ·), (· / ·), Real.cos, Real.sin, Real.pi⟩
          raNum decNum dist).y ^ 2
      + (starPosition ⟨(· * ·), (· - ·), (· / ·), Real.cos, Real.sin, Real.pi⟩
          raNum decNum dist).z ^ 2
      = (8 * |dist|) ^ 2 := by
  have hθ := Real.cos_sq_add_sin_sq (decNum * Real.pi / 180)
  have hφ := Real.cos_sq_add_sin_sq (raNum * Real.pi / 12 - Real.pi)
  have habs : (8 * |dist|) ^ 2 = (dist * 8) ^ 2 := by
    rw [mul_pow, sq_abs]; ring
  rw [habs]
  simp only [starPosition, Nat.cast_ofNat]
  linear_combination ((dist * 8) ^ 2 * Real.cos (decNum * Real.pi / 180) ^ 2) * hφ
    + (dist * 8) ^ 2 * hθ

theorem starRow_positions_of_included (E : Engine) (st : StarState) (row : String)
    (h : rowIncluded E row = true) :
    ∃ ra dec dist, rowField row 7 = some ra ∧ rowField row 8 = some dec ∧
      rowField row 9 = some dist ∧
      (starRow E st row).positions = st.positions ++
        pointOf (starPosition E.float (E.parseFloat ra) (E.parseFloat dec)
          (E.parseFloat dist)) := by
  have hp : ∀ i, present (rowField row i) = true → ∃ s, rowField row i = some s := by
    intro i hi
    cases hf : rowField row i with
    | none => simp [hf, present] at hi
    | some s => exact ⟨s, rfl⟩
  have h' := h
  simp only [rowIncluded, Bool.and_eq_true] at h'
  obtain ⟨ra, h7⟩ := hp 7 h'.1.1.1.1
  obtain ⟨dec, h8⟩ := hp 8 h'.1.1.1.2
  obtain ⟨dist, h9⟩ := hp 9 h'.1.1.2
  refine ⟨ra, dec, dist, h7, h8, h9, ?_⟩
  rw [starRow_eq, h]
  simp [addRow, pointOf, rowPosition, fieldText, h7, h8, h9]

/-- C10, counterexample: the included row `1,,,,,,,12,0,1e308,1` has the finite
parsed values 12, 0 and the double nearest `1e308`; the product `dist * 8`
overflows, and the stored position is `(Infinity, NaN, NaN)`, on no sphere.  The
included row `2,,,,,,,12,0,x,1` has an unparseable distance and the position
`(NaN, NaN, NaN)`. -/
theorem overflowing_distance_is_off_the_sphere :
    rowIncluded refEngine "1,,,,,,,12,0,1e308,1" = true ∧
    refParseFloat "12" = .fin 12 ∧ refParseFloat "0" = .fin 0 ∧
    refParseFloat "1e308" = .fin (roundPos (10 ^ 308)) ∧
    (loadStarsRows refEngine
      "id,hip,hd,hr,gl,bf,proper,ra,dec,dist,mag\n1,,,,,,,12,0,1e308,1").positions =
        [.posInf, .nan, .nan] ∧
    rowIncluded refEngine "2,,,,,,,12,0,x,1" = true ∧
    (loadStarsRows refEngine
      "id,hip,hd,hr,gl,bf,proper,ra,dec,dist,mag\n2,,,,,,,12,0,x,1").positions =
        [.nan, .nan, .nan] := by
  decide!

/-- C10, amended: the point an included row adds is the formula of lines 150-157,
`starPosition`, evaluated on the row's parsed `ra`, `dec` and `dist` in the engine's
arithmetic; evaluated in exact real arithmetic, the same formula lies on the
sphere of radius `8 * |dist|` about the origin, for every right ascension and
declination. -/
theorem starPosition_formula_on_sphere (E : Engine) :
    (∀ (st : StarState) (row : String), rowIncluded E row = true →
      ∃ ra dec dist, rowField row 7 = some ra ∧ rowField row 8 = some dec ∧
        rowField row 9 = some dist ∧
        (starRow E st row).positions = st.positions ++
          pointOf (starPosition E.float (E.parseFloat ra) (E.parseFloat dec)
            (E.parseFloat dist))) ∧
    (∀ raNum decNum dist : JSNumber,
      starPosition E.float raNum decNum dist =
        ⟨E.float.mul (E.float.mul (E.float.mul dist (.fin 8))
            (E.float.cos (E.float.div (E.float.mul decNum E.float.PI) (.fin 180))))
            (E.float.cos (E.float.sub (E.float.div (E.float.mul raNum E.float.PI) (.fin 12))
              E.float.PI)),
         E.float.mul (E.float.mul dist (.fin 8))
            (E.float.sin (E.float.div (E.float.mul decNum E.float.PI) (.fin 180))),
         E.float.mul (E.float.mul (E.float.mul dist (.fin 8))
            (E.float.cos (E.float.div (E.float.mul decNum E.float.PI) (.fin 180))))
            (E.float.sin (E.float.sub (E.float.div (E.float.mul raNum E.float.PI) (.fin 12))
              E.float.PI))⟩) ∧
    (∀ raNum decNum dist : ℝ,
      (starPosition ⟨(· * ·), (· - ·), (· / ·), Real.cos, Real.sin, Real.pi⟩
          raNum decNum dist).x ^ 2
        + (starPosition ⟨(· * ·), (· - ·), (· / ·), Real.cos, Real.sin, Real.pi⟩
            raNum decNum dist).y ^ 2
        + (starPosition ⟨(· * ·), (· - ·), (· / ·), Real.cos, Real.sin, Real.pi⟩
            raNum decNum dist).z ^ 2
        = (8 * |dist|) ^ 2) :=
  ⟨fun st row h => starRow_positions_of_included E st row h, fun _ _ _ => rfl,
    starPosition_real_on_sphere⟩

/-! ### Constellation labels -/

/-- C9, the failing input: a catalog with `hip` 0 and 5 and the constellation
`[0, 5]`.  The segment is drawn and the group is added, yet no label is created,
because the first resolved identifier, 0, is falsy; with 3 in place of 0 the
label is created. -/
theorem zero_identifier_gets_no_label :
    ((loadStars refEngine
        "id,hip,hd,hr,gl,bf,proper,ra,dec,dist,mag\n1,0,,,,,,6,0,1,1\n2,5,,,,,,18,0,1,2"
        [⟨"Zero", [.number (.fin 0), .number (.fin 5)]⟩]).2.constellationsGroup.map
          fun g => (g.1, g.2.length)) = [("Zero", 1)] ∧
    (loadStars refEngine
        "id,hip,hd,hr,gl,bf,proper,ra,dec,dist,mag\n1,0,,,,,,6,0,1,1\n2,5,,,,,,18,0,1,2"
        [⟨"Zero", [.number (.fin 0), .number (.fin 5)]⟩]).2.body = [] ∧
    (loadStars refEngine
        "id,hip,hd,hr,gl,bf,proper,ra,dec,dist,mag\n1,3,,,,,,6,0,1,1\n2,5,,,,,,18,0,1,2"
        [⟨"Zero", [.number (.fin 3), .number (.fin 5)]⟩]).2.body =
      [⟨"constellation-label", "Zero"⟩] := by
  decide!

theorem segmentsFrom_unresolved {α : Type} (M : JSMap JSValue (Vector3 α)) (L : List JSValue)
    (h : ∀ a ∈ L, mapGet M a = none) : ∀ prev, segmentsFrom M prev L = [] := by
  induction L with
  | nil => intro prev; rfl
  | cons b L ih =>
    intro prev
    have hb : mapGet M b = none := h b (List.mem_cons_self _ _)
    rw [segmentsFrom, hb, ih (fun a ha => h a (List.mem_cons_of_mem _ ha))]
    cases prev <;> rfl

theorem find_of_walk_lines_ne_nil {α : Type} (M : JSMap JSValue (Vector3 α)) (L : List JSValue)
    (h : (walk M L).lines ≠ []) :
    ∃ first p, L.find? (mapHas M) = some first ∧ mapGet M first = some p := by
  cases hf : L.find? (mapHas M) with
  | some first =>
    have hs := List.find?_some hf
    unfold mapHas at hs
    obtain ⟨p, hp⟩ := Option.isSome_iff_exists.mp hs
    exact ⟨first, p, rfl, hp⟩
  | none =>
    exfalso
    apply h
    rw [List.find?_eq_none] at hf
    have hall : ∀ a ∈ L, mapGet M a = none := by
      intro a ha
      have := hf a ha
      unfold mapHas at this
      cases hm : mapGet M a with
      | none => rfl
      | some _ => simp [hm] at this
    rw [walk, foldl_walkStep_lines, segmentsFrom_unresolved M L hall]
    rfl

/-- What `processConstellation` does to the scene: nothing when the identifier
list yields no segment; otherwise it adds the group of the segments, and it adds
the label, anchored at the position of the first resolved identifier, exactly when
that identifier is truthy. -/
theorem processConstellation_group_and_label {α : Type} (M : JSMap JSValue (Vector3 α))
    (s : Scene α) (c : Constellation) :
    (resolvedPairs M c.lines = [] → processConstellation M s c = s) ∧
    (resolvedPairs M c.lines ≠ [] →
      (processConstellation M s c).constellationsGroup =
        s.constellationsGroup ++ [(c.name, resolvedPairs M c.lines)] ∧
      ∃ first p, c.lines.find? (mapHas M) = some first ∧ mapGet M first = some p ∧
        (first.truthy = true →
          (processConstellation M s c).body = s.body ++ [⟨"constellation-label", c.name⟩] ∧
          mapGet (processConstellation M s c).starLabels ("constellation-" ++ c.name) =
            some ⟨⟨"constellation-label", c.name⟩, p⟩) ∧
        (first.truthy = false →
          (processConstellation M s c).body = s.body ∧
          (processConstellation M s c).starLabels = s.starLabels)) := by
  constructor
  · intro h
    unfold processConstellation
    simp [walk_lines, h]
  · intro h
    have hw : (walk M c.lines).lines ≠ [] := by rwa [walk_lines]
    obtain ⟨first, p, hf, hp⟩ := find_of_walk_lines_ne_nil M c.lines hw
    have hpos : 0 < (resolvedPairs M c.lines).length := List.length_pos.mpr h
    unfold processConstellation
    simp only [walk_lines, gt_iff_lt, hpos, if_true, hf, hp]
    constructor
    · by_cases ht : first.truthy = true <;> simp [ht, createConstellationLabel]
    · refine ⟨first, p, rfl, hp, ?_, ?_⟩
      · intro ht
        simp [ht, createConstellationLabel, mapGet_mapSet]
      · intro ht
        simp [ht]

/-- An unresolved identifier breaks the line and is not bridged: with 1, 2, 3 and 4
in the lookup and 99 not, the list `[1, 2, 99, 3, 4]` gives the segments 1-2 and
3-4 only. -/
theorem walk_example :
    (walk [(.number (.fin 1), (⟨1, 0, 0⟩ : Vector3 ℕ)), (.number (.fin 2), ⟨2, 0, 0⟩),
        (.number (.fin 3), ⟨3, 0, 0⟩), (.number (.fin 4), ⟨4, 0, 0⟩)]
      [.number (.fin 1), .number (.fin 2), .number (.fin 99), .number (.fin 3),
        .number (.fin 4)]).lines =
      [⟨⟨1, 0, 0⟩, ⟨2, 0, 0⟩⟩, ⟨⟨3, 0, 0⟩, ⟨4, 0, 0⟩⟩] := by
  decide!

/-- The loaders on the small catalog: two of its four data rows are included (the
star at magnitude 7 is, the star at 7.5 and the row without a distance are not),
one star is labelled, and the lookup has the keys 42 and 7. -/
theorem fixtureCatalog_example :
    (loadStarsRows refEngine fixtureCatalog).positions.length = 6 ∧
    (loadStarsRows refEngine fixtureCatalog).colors =
      [.fin 1, roundDouble (244 / 255), roundDouble (234 / 255), .fin 1, .fin 1, .fin 1] ∧
    (loadStarsRows refEngine fixtureCatalog).starsToLabel.map (fun s => s.name) = ["Sol"] ∧
    (loadStarsRows refEngine fixtureCatalog).starHipMap.map (fun e => e.1) =
      [.number (.fin 42), .number (.fin 7)] ∧
    (loadStars refEngine fixtureCatalog
      [⟨"Pair", [.number (.fin 42), .number (.fin 43), .number (.fin 7)]⟩,
       ⟨"Line", [.number (.fin 42), .number (.fin 7)]⟩]).2.body =
      [⟨"star-label", "Sol"⟩, ⟨"constellation-label", "Line"⟩] := by
  decide!

/-! ### Properties of double arithmetic -/

theorem pow2_eq_zpow (e : ℤ) : pow2 e = (2 : ℚ) ^ e := by
  unfold pow2
  split
  · rename_i h
    have : e = (e.toNat : ℤ) := (Int.toNat_of_nonneg h).symm
    rw [Nat.cast_pow]
    conv_rhs => rw [this]
    rw [zpow_natCast]
    norm_num
  · rename_i h
    have hn : (0 : ℤ) ≤ -e := by omega
    have : e = -((-e).toNat : ℤ) := by rw [Int.toNat_of_nonneg hn]; ring
    rw [Nat.cast_pow]
    conv_rhs => rw [this]
    rw [zpow_neg, zpow_natCast]
    norm_num

theorem pow2_pos (e : ℤ) : 0 < pow2 e := by
  rw [pow2_eq_zpow]; positivity

theorem log2Fuel_spec : ∀ fuel n : ℕ, 1 ≤ n → n ≤ fuel →
    2 ^ log2Fuel fuel n ≤ n ∧ n < 2 ^ (log2Fuel fuel n + 1) := by
  intro fuel
  induction fuel with
  | zero => intro n h1 h2; omega
  | succ fuel ih =>
    intro n h1 h2
    unfold log2Fuel
    by_cases hn : n < 2
    · simp only [hn, if_true]
      omega
    · simp only [hn, if_false]
      have h := ih (n / 2) (by omega) (by omega)
      constructor
      · calc 2 ^ (log2Fuel fuel (n / 2) + 1) = 2 ^ log2Fuel fuel (n / 2) * 2 := pow_succ _ _
          _ ≤ (n / 2) * 2 := Nat.mul_le_mul_right _ h.1
          _ ≤ n := Nat.div_mul_le_self n 2
      · have h2' : n / 2 + 1 ≤ 2 ^ (log2Fuel fuel (n / 2) + 1) := h.2
        calc n < (n / 2 + 1) * 2 := by omega
          _ ≤ 2 ^ (log2Fuel fuel (n / 2) + 1) * 2 := Nat.mul_le_mul_right _ h2'
          _ = 2 ^ (log2Fuel fuel (n / 2) + 1 + 1) := (pow_succ _ _).symm

theorem floorLog2_spec (n : ℕ) (h : 1 ≤ n) :
    2 ^ floorLog2 n ≤ n ∧ n < 2 ^ (floorLog2 n + 1) :=
  log2Fuel_spec n n h (le_refl n)

theorem binade_spec (q : ℚ) (hq : 0 < q) :
    (2 : ℚ) ^ binade q ≤ q ∧ q < (2 : ℚ) ^ (binade q + 1) := by
  have hnum : 0 < q.num := Rat.num_pos.mpr hq
  have hn1 : 1 ≤ q.num.natAbs := by omega
  have hd1 : 1 ≤ q.den := q.den_pos
  obtain ⟨ha1, ha2⟩ := floorLog2_spec q.num.natAbs hn1
  obtain ⟨hb1, hb2⟩ := floorLog2_spec q.den hd1
  have hqe : q = (q.num.natAbs : ℚ) / (q.den : ℚ) := by
    have h1 : (q.num.natAbs : ℚ) = (q.num : ℚ) := by
      rw [← Int.cast_natCast, Int.natAbs_of_nonneg hnum.le]
    rw [h1]
    exact (Rat.num_div_den q).symm
  have hdpos : (0 : ℚ) < q.den := by exact_mod_cast hd1
  have ha1' : (2 : ℚ) ^ floorLog2 q.num.natAbs ≤ q.num.natAbs := by exact_mod_cast ha1
  have ha2' : (q.num.natAbs : ℚ) < (2 : ℚ) ^ (floorLog2 q.num.natAbs + 1) := by
    exact_mod_cast ha2
  have hb1' : (2 : ℚ) ^ floorLog2 q.den ≤ q.den := by exact_mod_cast hb1
  have hb2' : (q.den : ℚ) < (2 : ℚ) ^ (floorLog2 q.den + 1) := by exact_mod_cast hb2
  have h2pos : ∀ k : ℕ, (0 : ℚ) < 2 ^ k := fun k => by positivity
  have hsub : ∀ a b : ℕ, (2 : ℚ) ^ ((a : ℤ) - (b : ℤ)) = 2 ^ a / 2 ^ b := by
    intro a b
    rw [zpow_sub₀ (by norm_num : (2 : ℚ) ≠ 0), zpow_natCast, zpow_natCast]
  unfold binade
  simp only [pow2_eq_zpow]
  split
  · rename_i hle
    refine ⟨hle, ?_⟩
    have : ((floorLog2 q.num.natAbs : ℤ) - (floorLog2 q.den : ℤ) + 1) =
        ((floorLog2 q.num.natAbs + 1 : ℕ) : ℤ) - (floorLog2 q.den : ℤ) := by push_cast; ring
    rw [this, hsub]
    refine lt_of_eq_of_lt hqe ?_
    rw [div_lt_div_iff₀ hdpos (h2pos _)]
    calc (q.num.natAbs : ℚ) * 2 ^ floorLog2 q.den
        < 2 ^ (floorLog2 q.num.natAbs + 1) * 2 ^ floorLog2 q.den :=
          mul_lt_mul_of_pos_right ha2' (h2pos _)
      _ ≤ 2 ^ (floorLog2 q.num.natAbs + 1) * q.den :=
          mul_le_mul_of_nonneg_left hb1' (h2pos _).le
  · rename_i hnle
    constructor
    · have : ((floorLog2 q.num.natAbs : ℤ) - (floorLog2 q.den : ℤ) - 1) =
          ((floorLog2 q.num.natAbs : ℕ) : ℤ) - ((floorLog2 q.den + 1 : ℕ) : ℤ) := by
        push_cast; ring
      rw [this, hsub]
      refine le_of_le_of_eq ?_ hqe.symm
      rw [div_le_div_iff₀ (h2pos _) hdpos]
      calc (2 : ℚ) ^ floorLog2 q.num.natAbs * q.den
          ≤ q.num.natAbs * q.den := mul_le_mul_of_nonneg_right ha1' hdpos.le
        _ ≤ q.num.natAbs * 2 ^ (floorLog2 q.den + 1) :=
            mul_le_mul_of_nonneg_left hb2'.le (by positivity)
    · have : ((floorLog2 q.num.natAbs : ℤ) - (floorLog2 q.den : ℤ) - 1 + 1) =
          (floorLog2 q.num.natAbs : ℤ) - (floorLog2 q.den : ℤ) := by ring
      rw [this]
      exact lt_of_not_le hnle
theorem binade_mono (a b : ℚ) (ha : 0 < a) (hab : a ≤ b) : binade a ≤ binade b := by
  have h1 := (binade_spec a ha).1
  have h2 := (binade_spec b (lt_of_lt_of_le ha hab)).2
  have h3 : (2 : ℚ) ^ binade a < (2 : ℚ) ^ (binade b + 1) :=
    lt_of_le_of_lt (le_trans h1 hab) h2
  have h4 := (zpow_lt_zpow_iff_right₀ (by norm_num : (1 : ℚ) < 2)).mp h3
  omega

theorem roundHalfEven_le (t : ℚ) (K : ℤ) (h : t ≤ K) : roundHalfEven t ≤ K := by
  have hf : ⌊t⌋ ≤ K := by
    have h1 : ((⌊t⌋ : ℤ) : ℚ) ≤ K := le_trans (Int.floor_le t) h
    exact_mod_cast h1
  have hstep : (1 / 2 : ℚ) ≤ t - ⌊t⌋ → ⌊t⌋ + 1 ≤ K := by
    intro hr
    have hlt : ((⌊t⌋ : ℤ) : ℚ) < K := by
      have : ((⌊t⌋ : ℤ) : ℚ) < t := by linarith
      exact lt_of_lt_of_le this h
    have : ⌊t⌋ < K := by exact_mod_cast hlt
    omega
  unfold roundHalfEven
  simp only
  split
  · exact hf
  · rename_i h1
    have hr : (1 / 2 : ℚ) ≤ t - ⌊t⌋ := not_lt.mp h1
    split
    · exact hstep hr
    · split
      · exact hf
      · exact hstep hr

theorem roundHalfEven_nonneg (t : ℚ) (h : 0 ≤ t) : 0 ≤ roundHalfEven t := by
  have hf : 0 ≤ ⌊t⌋ := Int.floor_nonneg.mpr h
  unfold roundHalfEven
  simp only
  split
  · exact hf
  · split
    · omega
    · split
      · exact hf
      · omega
theorem ulp_pos (a : ℚ) : 0 < ulp a := pow2_pos _

theorem roundPos_nonneg (a : ℚ) (ha : 0 ≤ a) : 0 ≤ roundPos a := by
  unfold roundPos
  have h1 : (0 : ℚ) ≤ roundHalfEven (a / ulp a) := by
    exact_mod_cast roundHalfEven_nonneg _ (div_nonneg ha (ulp_pos a).le)
  exact mul_nonneg h1 (ulp_pos a).le

theorem roundPos_le (a hi : ℚ) (ha : 0 < a) (hab : a ≤ hi) (hrep : roundPos hi = hi) :
    roundPos a ≤ hi := by
  have hE : max (binade a) (-1022) ≤ max (binade hi) (-1022) :=
    max_le_max (binade_mono a hi ha hab) le_rfl
  obtain ⟨n, hn⟩ : ∃ n : ℕ, max (binade hi) (-1022) - 52 = (max (binade a) (-1022) - 52) + n :=
    ⟨(max (binade hi) (-1022) - max (binade a) (-1022)).toNat, by omega⟩
  have hu : ulp hi = ulp a * 2 ^ n := by
    unfold ulp
    rw [pow2_eq_zpow, pow2_eq_zpow, hn, zpow_add₀ (by norm_num : (2 : ℚ) ≠ 0), zpow_natCast]
  have hua := ulp_pos a
  obtain ⟨k, hk⟩ : ∃ k : ℤ, hi = (k : ℚ) * ulp hi :=
    ⟨roundHalfEven (hi / ulp hi), hrep.symm⟩
  have hK : hi / ulp a = ((k * 2 ^ n : ℤ) : ℚ) := by
    rw [hk, hu]
    push_cast
    field_simp
    ring
  have hle : a / ulp a ≤ ((k * 2 ^ n : ℤ) : ℚ) := by
    rw [← hK]
    exact div_le_div_of_nonneg_right hab hua.le
  have hr := roundHalfEven_le _ _ hle
  have hr' : (roundHalfEven (a / ulp a) : ℚ) ≤ ((k * 2 ^ n : ℤ) : ℚ) := by
    exact_mod_cast hr
  calc roundPos a = (roundHalfEven (a / ulp a) : ℚ) * ulp a := rfl
    _ ≤ ((k * 2 ^ n : ℤ) : ℚ) * ulp a := mul_le_mul_of_nonneg_right hr' hua.le
    _ = hi / ulp a * ulp a := by rw [hK]
    _ = hi := div_mul_cancel₀ hi hua.ne'

/-- A rational is a binary64 value: rounding leaves it as it is. -/
theorem roundDouble_fin_iff (h : ℚ) (hpos : 0 < h) :
    roundDouble h = .fin h ↔ roundPos h = h ∧ h < pow2 1024 := by
  unfold roundDouble
  rw [if_neg hpos.ne', if_pos hpos]
  constructor
  · intro hh
    split at hh
    · rename_i hlt
      have : roundPos h = h := by injection hh
      exact ⟨this, this ▸ hlt⟩
    · cases hh
  · rintro ⟨h1, h2⟩
    rw [h1, if_pos h2]

theorem roundDouble_between (a hi : ℚ) (ha : 0 ≤ a) (hab : a ≤ hi)
    (hrep : roundDouble hi = .fin hi) :
    ∃ r, roundDouble a = .fin r ∧ 0 ≤ r ∧ r ≤ hi := by
  rcases eq_or_lt_of_le ha with h0 | hpos
  · refine ⟨0, ?_, le_refl 0, le_trans ha hab⟩
    rw [← h0]; simp [roundDouble]
  · have hhi : 0 < hi := lt_of_lt_of_le hpos hab
    obtain ⟨h1, h2⟩ := (roundDouble_fin_iff hi hhi).mp hrep
    have hle := roundPos_le a hi hpos hab h1
    refine ⟨roundPos a, ?_, roundPos_nonneg a ha, hle⟩
    unfold roundDouble
    rw [if_neg hpos.ne', if_pos hpos, if_pos (lt_of_le_of_lt hle h2)]

theorem roundDouble_abs_le (t hi : ℚ) (hab : |t| ≤ hi) (hrep : roundDouble hi = .fin hi) :
    ∃ r, roundDouble t = .fin r ∧ |r| ≤ hi := by
  rcases lt_trichotomy t 0 with hneg | h0 | hpos
  · have hpos : 0 < -t := by linarith
    have habs : |t| = -t := abs_of_neg hneg
    have hhi : 0 < hi := by linarith
    obtain ⟨h1, h2⟩ := (roundDouble_fin_iff hi hhi).mp hrep
    have hle := roundPos_le (-t) hi hpos (habs ▸ hab) h1
    refine ⟨-roundPos (-t), ?_, ?_⟩
    · unfold roundDouble
      rw [if_neg hneg.ne, if_neg (not_lt.mpr hneg.le), if_pos (lt_of_le_of_lt hle h2)]
    · rw [abs_neg, abs_of_nonneg (roundPos_nonneg _ hpos.le)]
      exact hle
  · subst h0
    refine ⟨0, by simp [roundDouble], ?_⟩
    simpa using hab
  · have habs : |t| = t := abs_of_pos hpos
    obtain ⟨r, hr, hr0, hrle⟩ := roundDouble_between t hi hpos.le (habs ▸ hab) hrep
    exact ⟨r, hr, by rw [abs_of_nonneg hr0]; exact hrle⟩
theorem roundDouble_zero : roundDouble 0 = .fin 0 := by simp [roundDouble]

theorem roundDouble_half : roundDouble (1 / 2) = .fin (1 / 2) := by decide!

theorem roundDouble_one : roundDouble 1 = .fin 1 := by decide!

theorem roundDouble_neg_half : roundDouble (-(1 / 2)) = .fin (-(1 / 2)) := by decide!

/-- The pixel coordinate `(p * 0.5 + 0.5) * w` in double arithmetic, for `p` in
`[-1, 1]` and a non-negative binary64 `w`: the three rounded operations give
finite values, and the result lies in `[0, w]`, at 0 for `p = -1` and at `w` for
`p = 1`. -/
theorem pixel_in_range (p w : ℚ) (hp1 : -1 ≤ p) (hp2 : p ≤ 1) (hw : 0 ≤ w)
    (hrep : roundDouble w = .fin w) :
    ∃ r₁ r₂ x : ℚ, roundDouble (p * (1 / 2)) = .fin r₁ ∧ roundDouble (r₁ + 1 / 2) = .fin r₂ ∧
      roundDouble (r₂ * w) = .fin x ∧
      (((JSNumber.fin p).mul half).add half).mul (.fin w) = .fin x ∧
      0 ≤ x ∧ x ≤ w ∧ (p = -1 → x = 0) ∧ (p = 1 → x = w) := by
  have habs : |p * (1 / 2)| ≤ 1 / 2 := by
    rw [abs_le]; constructor <;> linarith
  obtain ⟨r₁, h1, hr1⟩ := roundDouble_abs_le _ _ habs roundDouble_half
  rw [abs_le] at hr1
  obtain ⟨r₂, h2, hr20, hr21⟩ :=
    roundDouble_between (r₁ + 1 / 2) 1 (by linarith) (by linarith) roundDouble_one
  obtain ⟨x, h3, hx0, hxw⟩ :=
    roundDouble_between (r₂ * w) w (mul_nonneg hr20 hw)
      (by calc r₂ * w ≤ 1 * w := mul_le_mul_of_nonneg_right hr21 hw
            _ = w := one_mul w) hrep
  have hval : (((JSNumber.fin p).mul half).add half).mul (.fin w) = .fin x := by
    show ((roundDouble (p * (1 / 2))).add half).mul (.fin w) = .fin x
    rw [h1]
    show (roundDouble (r₁ + 1 / 2)).mul (.fin w) = .fin x
    rw [h2]
    exact h3
  refine ⟨r₁, r₂, x, h1, h2, h3, hval, hx0, hxw, ?_, ?_⟩
  · intro hp
    subst hp
    have e1 : r₁ = -(1 / 2) := by
      have : roundDouble (-1 * (1 / 2)) = .fin (-(1 / 2)) := by
        rw [show (-1 : ℚ) * (1 / 2) = -(1 / 2) by norm_num]; exact roundDouble_neg_half
      rw [this] at h1; injection h1 with h; exact h.symm
    have e2 : r₂ = 0 := by
      rw [e1, show (-(1 / 2) : ℚ) + 1 / 2 = 0 by norm_num, roundDouble_zero] at h2
      injection h2 with h; exact h.symm
    rw [e2, zero_mul, roundDouble_zero] at h3
    injection h3 with h; exact h.symm
  · intro hp
    subst hp
    have e1 : r₁ = 1 / 2 := by
      rw [one_mul, roundDouble_half] at h1; injection h1 with h; exact h.symm
    have e2 : r₂ = 1 := by
      rw [e1, show (1 / 2 : ℚ) + 1 / 2 = 1 by norm_num, roundDouble_one] at h2
      injection h2 with h; exact h.symm
    rw [e2, one_mul, hrep] at h3
    injection h3 with h; exact h.symm

/-! ### Properties of `updateLabels` -/

theorem opacity_iff (b : Bool) :
    ((if b = true then "1" else "0") = "1" ↔ b = true) ∧
    ((if b = true then "1" else "0") = "0" ↔ b = false) := by
  cases b <;> decide

theorem updateLabels_getElem? (project : Vector3 JSNumber → Vector3 JSNumber)
    (innerWidth innerHeight : JSNumber) (starLabels : JSMap String (LabelEntry JSNumber))
    (i : ℕ) :
    (updateLabels project innerWidth innerHeight starLabels)[i]? =
      (starLabels[i]?).map fun e => (e.1, updateLabel project innerWidth innerHeight e.2) := by
  unfold updateLabels
  rw [List.getElem?_map]

/-- C8, amended: `updateLabels` writes one style for every entry of `starLabels`,
in order and under the entry's key.  For the projected anchor `(px, py, pz)` of the
entry the style is the pixel `((px * 0.5 + 0.5) * W, (-py * 0.5 + 0.5) * H)`, each
operation rounded to binary64, with opacity 1 exactly when `pz < 1` and opacity 0
otherwise, a NaN depth included.  For `px`, `py` in `[-1, 1]` and a window of
non-negative binary64 sizes the pixel lies in `[0, W] x [0, H]`: `px = -1` at the
left edge, `px = 1` at the right, `py = 1` at the top (`y = 0`) and `py = -1` at the
bottom (`y = H`). -/
theorem updateLabels_places_every_entry (project : Vector3 JSNumber → Vector3 JSNumber)
    (innerWidth innerHeight : JSNumber) (starLabels : JSMap String (LabelEntry JSNumber)) :
    (updateLabels project innerWidth innerHeight starLabels).length = starLabels.length ∧
    ∀ (i : ℕ) (key : String) (entry : LabelEntry JSNumber),
      starLabels[i]? = some (key, entry) →
      ∃ style : LabelStyle, (updateLabels project innerWidth innerHeight starLabels)[i]? = some (key, style) ∧
        style.x = (((project entry.position).x.mul (.fin (1 / 2))).add (.fin (1 / 2))).mul
          innerWidth ∧
        style.y = ((((project entry.position).y.neg).mul (.fin (1 / 2))).add
          (.fin (1 / 2))).mul innerHeight ∧
        (style.opacity = "1" ↔ (project entry.position).z.lt (.fin 1) = true) ∧
        (style.opacity = "0" ↔ (project entry.position).z.lt (.fin 1) = false) ∧
        (∀ pz : ℚ, (project entry.position).z = .fin pz →
          (style.opacity = "1" ↔ pz < 1) ∧ (style.opacity = "0" ↔ 1 ≤ pz)) ∧
        ((project entry.position).z = .nan → style.opacity = "0") ∧
        (∀ px py w h : ℚ, (project entry.position).x = .fin px →
          (project entry.position).y = .fin py →
          innerWidth = .fin w → innerHeight = .fin h → 0 ≤ w → 0 ≤ h →
          roundDouble w = .fin w → roundDouble h = .fin h →
          -1 ≤ px → px ≤ 1 → -1 ≤ py → py ≤ 1 →
          ∃ a₁ a₂ b₁ b₂ x y : ℚ,
            roundDouble (px * (1 / 2)) = .fin a₁ ∧ roundDouble (a₁ + 1 / 2) = .fin a₂ ∧
            roundDouble (a₂ * w) = .fin x ∧
            roundDouble (-py * (1 / 2)) = .fin b₁ ∧ roundDouble (b₁ + 1 / 2) = .fin b₂ ∧
            roundDouble (b₂ * h) = .fin y ∧
            style.x = .fin x ∧ style.y = .fin y ∧
            0 ≤ x ∧ x ≤ w ∧ 0 ≤ y ∧ y ≤ h ∧
            (px = -1 → x = 0) ∧ (px = 1 → x = w) ∧ (py = 1 → y = 0) ∧ (py = -1 → y = h)) := by
  refine ⟨by simp [updateLabels], ?_⟩
  intro i key entry hi
  refine ⟨updateLabel project innerWidth innerHeight entry, ?_, rfl, rfl, (opacity_iff _).1,
    (opacity_iff _).2, ?_, ?_, ?_⟩
  · rw [updateLabels_getElem?, hi]; rfl
  · intro pz hz
    have h1 : (JSNumber.fin pz).lt (.fin 1) = true ↔ pz < 1 := by
      simp [JSNumber.lt, JSNumber.gt]
    have h2 : (JSNumber.fin pz).lt (.fin 1) = false ↔ 1 ≤ pz := by
      simp [JSNumber.lt, JSNumber.gt]
    unfold updateLabel
    simp only [hz]
    exact ⟨(opacity_iff _).1.trans h1, (opacity_iff _).2.trans h2⟩
  · intro hz
    unfold updateLabel
    simp only [hz]
    rfl
  · intro px py w h hx hy hw hh hw0 hh0 hwr hhr hx1 hx2 hy1 hy2
    obtain ⟨a₁, a₂, x, ha1, ha2, hax, hxv, hx0, hxw, hxl, hxr⟩ :=
      pixel_in_range px w hx1 hx2 hw0 hwr
    obtain ⟨b₁, b₂, y, hb1, hb2, hby, hyv, hy0, hyh, hyl, hyr⟩ :=
      pixel_in_range (-py) h (by linarith) (by linarith) hh0 hhr
    refine ⟨a₁, a₂, b₁, b₂, x, y, ha1, ha2, hax, hb1, hb2, hby, ?_, ?_, hx0, hxw, hy0, hyh,
      hxl, hxr, ?_, ?_⟩
    · unfold updateLabel; simp only [hx, hw]; exact hxv
    · unfold updateLabel; simp only [hy, hh]; exact hyv
    · intro h1; exact hyl (by rw [h1])
    · intro h1; exact hyr (by rw [h1]; norm_num)

/-- C8, counterexample: two labelled stars with the proper name `Twin`, anchored at
`(8, 0, 0)` and `(16, 0, 0)`.  Both label elements are on the page, but `starLabels`
keeps the second one only, so `updateLabels` writes a single style, for the anchor
`(16, 0, 0)`, and the first label is never placed. -/
theorem overwritten_label_is_not_placed :
    (loadStars refEngine "id,hip,hd,hr,gl,bf,proper,ra,dec,dist,mag\n1,,,,,,Twin,12,0,1,1\n2,,,,,,Twin,12,0,2,1"
      []).2.body = [⟨"star-label", "Twin"⟩, ⟨"star-label", "Twin"⟩] ∧
    (loadStars refEngine "id,hip,hd,hr,gl,bf,proper,ra,dec,dist,mag\n1,,,,,,Twin,12,0,1,1\n2,,,,,,Twin,12,0,2,1"
      []).1.starsToLabel = [⟨"Twin", ⟨.fin 8, .fin 0, .fin 0⟩⟩, ⟨"Twin", ⟨.fin 16, .fin 0, .fin 0⟩⟩] ∧
    (loadStars refEngine "id,hip,hd,hr,gl,bf,proper,ra,dec,dist,mag\n1,,,,,,Twin,12,0,1,1\n2,,,,,,Twin,12,0,2,1"
      []).2.starLabels = [("Twin", ⟨⟨"star-label", "Twin"⟩, ⟨.fin 16, .fin 0, .fin 0⟩⟩)] ∧
    (updateLabels (fun v => ⟨v.x.mul (.fin (1 / 32)), v.y, .fin (1 / 2)⟩) (.fin 800) (.fin 600)
      (loadStars refEngine "id,hip,hd,hr,gl,bf,proper,ra,dec,dist,mag\n1,,,,,,Twin,12,0,1,1\n2,,,,,,Twin,12,0,2,1"
        []).2.starLabels) = [("Twin", ⟨.fin 600, .fin 300, "1"⟩)] := by
  decide!

/-- Rounding on small inputs: one tenth goes to its nearest binary64 value, a product
beyond the largest one overflows, and a tie goes to the even significand. -/
theorem roundDouble_examples :
    roundDouble (1 / 10) = .fin (3602879701896397 / 36028797018963968) ∧
    JSNumber.mul (.fin (2 ^ 1023)) (.fin 2) = .posInf ∧
    roundDouble (9007199254740993 : ℚ) = .fin 9007199254740992 ∧
    roundDouble (9007199254740995 : ℚ) = .fin 9007199254740996 := by
  decide!

/-- The style of one label in a window of 749 by 600 pixels, for the projected
anchor `(0.48169487923044585, -0.25, 0.5)` given by its binary64 values: the
horizontal pixel is the rounded `554.88...`, not the exact value of the
expression. -/
theorem updateLabel_example :
    updateLabel (fun _ => ⟨.fin (16948131864129 / 35184372088832), .fin (-1 / 4),
        .fin (1 / 2)⟩) (.fin 749) (.fin 600)
      ⟨⟨"star-label", "Sol"⟩, ⟨.fin 8, .fin 0, .fin 0⟩⟩ =
      ⟨.fin (2440452841297987 / 4398046511104), .fin 375, "1"⟩ ∧
    (((16948131864129 : ℚ) / 35184372088832) * (1 / 2) + 1 / 2) * 749 ≠
      2440452841297987 / 4398046511104 := by
  decide!

end SpaceGlobe
